import Mathlib

/-!
Shallow embedding of the UniverseIdleGame generation pipeline
(src/utils/galaxyGenerator.ts, src/utils/nameGenerator.ts,
src/utils/factionGenerator.ts, src/utils/startingSystem.ts) and proofs of
the specification claims about it.

Modelling conventions:
* JavaScript numbers are modelled as real numbers (`ℝ`); `Math.sqrt` is
  `Real.sqrt`; `Math.floor` is `Int.floor` (composed with `Int.toNat` where
  the result is used as an array index, which matches JS for the
  non-negative values that actually occur).
* `Math.random()` is modelled by an explicit stream `Nat → ℝ` of drawn
  values together with a cursor; `uuidv4()` by a stream `Nat → String`.
* The JS `Infinity` / `-Infinity` sentinels used as fold initialisers are
  modelled by `⊤ : EReal` / `⊥ : EReal`, with real-valued distances
  coerced into `EReal` for the comparisons, exactly mirroring the source's
  comparison structure.
* `Map<string, T>` keyed by ids is modelled as a total function (for the
  union-find `parent`/`rank` maps, whose keys are exactly the star ids and
  whose reads in the source are all preceded by `makeSet`) or as an
  association list in insertion order (for faction `relations`).
  `Set<T>` is modelled as a duplicate-free list in insertion order.
* The two `while` loops of the source whose termination is only
  probabilistic (the fallback home-star pick and the faction colour pick)
  are given explicit fuel and return `Option`; fuel exhaustion corresponds
  to a non-terminating run of the source.
* String operations: JS `startsWith` / `includes` are modelled on the
  character list (`String.data`) of the Lean string, which agrees with JS
  on the ASCII strings produced by the generators.
-/

namespace UIG

noncomputable section

/-! ## Data model (src/types/galaxy.ts) -/

structure Vector2D where
  x : ℝ
  y : ℝ

inductive StarType
  | RED_DWARF | YELLOW_DWARF | BLUE_GIANT | RED_GIANT | NEUTRON | PULSAR | BLACK_HOLE
  deriving DecidableEq

inductive PlanetType
  | ROCKY | GAS_GIANT | ICE | DESERT | OCEAN
  deriving DecidableEq

inductive ResourceType
  | IRON | COPPER | GOLD | PLATINUM | RARE_EARTH | WATER | FUEL
  | TITANIUM | URANIUM | SILICON | CARBON | METHANE | AMMONIA
  | HELIUM_3 | DEUTERIUM | PLASMA | HYDROGEN | ICE | ORGANICS | FOOD
  deriving DecidableEq

inductive FactionType
  | CORPORATE | SCIENTIFIC | MILITARISTIC | PEACEFUL | XENOPHOBIC | RELIGIOUS | HIVE_MIND
  deriving DecidableEq

structure Star where
  id : String
  position : Vector2D
  name : String
  type : StarType
  size : ℝ
  color : String

instance : Inhabited Star := ⟨⟨"", ⟨0, 0⟩, "", .RED_DWARF, 0, ""⟩⟩

instance : Inhabited FactionType := ⟨.CORPORATE⟩

structure Resource where
  type : ResourceType
  amount : ℝ
  regenerationRate : ℝ

structure Planet where
  id : String
  name : String
  type : PlanetType
  size : ℝ
  orbitSpeed : ℝ
  resources : List Resource
  buildings : List Unit
  starId : String
  resourcePatches : List Unit

instance : Inhabited Planet := ⟨⟨"", "", .ROCKY, 0, 0, [], [], "", []⟩⟩

structure StarSystem where
  id : String
  star : Star
  planets : List Planet
  resources : List Resource

instance : Inhabited StarSystem := ⟨⟨"", default, [], []⟩⟩

structure HyperspaceLane where
  id : String
  fromStarId : String
  toStarId : String
  distance : ℝ

structure FactionTraits where
  expansionist : ℝ
  diplomatic : ℝ
  aggressive : ℝ
  technological : ℝ
  economic : ℝ

structure Faction where
  id : String
  name : String
  type : FactionType
  traits : FactionTraits
  color : String
  homeSystemId : String
  controlledSystems : List String
  relations : List (String × ℝ)

/-! ## Randomness plumbing

A run of the generators is parametrised by a stream `s : Nat → ℝ` of the
values drawn by `Math.random()` and a stream `u : Nat → String` of the ids
produced by `uuidv4()`, with a cursor into each. -/

structure St where
  rnd : Nat
  uid : Nat

def randR (s : Nat → ℝ) (st : St) : ℝ × St :=
  (s st.rnd, ⟨st.rnd + 1, st.uid⟩)

def freshId (u : Nat → String) (st : St) : String × St :=
  (u st.uid, ⟨st.rnd, st.uid + 1⟩)

/-- JS `Set.add` on a set modelled as a duplicate-free list in insertion
order. -/
def addStr (l : List String) (x : String) : List String :=
  if x ∈ l then l else l ++ [x]

/-! ## Geometry (galaxyGenerator.ts) -/

noncomputable def calculateDistance (pos1 pos2 : Vector2D) : ℝ :=
  Real.sqrt ((pos2.x - pos1.x) ^ 2 + (pos2.y - pos1.y) ^ 2)

def MAX_HYPERLANE_DISTANCE : ℝ := 200

def EXTRA_CONNECTIONS_FACTOR : ℝ := 3 / 10

/-! ## Union-find (galaxyGenerator.ts, class UnionFind)

`parent` and `rank` are `Map<string, string>` / `Map<string, number>` in
the source, read only at keys previously passed to `makeSet`; they are
modelled as total functions.  The recursive path-compressing `find` is
given fuel; with fuel at least the number of stars it never runs out
(proved below from the union-by-rank invariant). -/

structure UF where
  parent : String → String
  rank : String → Nat

def UF.makeSet (uf : UF) (x : String) : UF :=
  ⟨Function.update uf.parent x x, Function.update uf.rank x 0⟩

/-- Path-compressing `find`: returns the updated parent map and the root. -/
def findAux : Nat → (String → String) → String → (String → String) × String
  | 0, p, x => (p, x)
  | fuel + 1, p, x =>
    if p x = x then (p, x)
    else
      let res := findAux fuel p (p x)
      (Function.update res.1 x res.2, res.2)

def UF.find (n : Nat) (uf : UF) (x : String) : UF × String :=
  let res := findAux n uf.parent x
  (⟨res.1, uf.rank⟩, res.2)

def UF.union (n : Nat) (uf : UF) (x y : String) : UF :=
  let fx := uf.find n x
  let fy := fx.1.find n y
  let rootX := fx.2
  let rootY := fy.2
  let uf2 := fy.1
  if rootX ≠ rootY then
    let rankX := uf2.rank rootX
    let rankY := uf2.rank rootY
    if rankX < rankY then ⟨Function.update uf2.parent rootX rootY, uf2.rank⟩
    else if rankY < rankX then ⟨Function.update uf2.parent rootY rootX, uf2.rank⟩
    else ⟨Function.update uf2.parent rootY rootX, Function.update uf2.rank rootX (rankX + 1)⟩
  else uf2

/-! ## Hyperspace lanes (galaxyGenerator.ts, generateHyperspaceLanes) -/

structure Edge where
  fromStarId : String
  toStarId : String
  distance : ℝ

/-- The `usedEdges` key of an edge: `` `${fromStarId}-${toStarId}` ``. -/
def edgeKey (e : Edge) : String :=
  e.fromStarId ++ "-" ++ e.toStarId

/-- The double loop `for i; for j > i` producing every unordered star pair
once, oriented from the earlier to the later list position. -/
noncomputable def allPairsEdges : List Star → List Edge
  | [] => []
  | s :: rest =>
    (rest.map fun t => ⟨s.id, t.id, calculateDistance s.position t.position⟩) ++
      allPairsEdges rest

noncomputable def shortEdgesOf (stars : List Star) : List Edge :=
  (allPairsEdges stars).filter fun e => decide (e.distance ≤ MAX_HYPERLANE_DISTANCE)

noncomputable def sortByDistance (edges : List Edge) : List Edge :=
  edges.mergeSort fun a b => decide (a.distance ≤ b.distance)

def initUF (stars : List Star) : UF :=
  stars.foldl (fun uf s => uf.makeSet s.id) ⟨fun x => x, fun _ => 0⟩

structure KState where
  uf : UF
  mst : List Edge
  used : List String

/-- One iteration of the first (Kruskal) pass over the sorted edge list. -/
def kruskalStep (n : Nat) (st : KState) (e : Edge) : KState :=
  let fx := st.uf.find n e.fromStarId
  let fy := fx.1.find n e.toStarId
  if fx.2 ≠ fy.2 then
    ⟨fy.1.union n e.fromStarId e.toStarId, st.mst ++ [e], addStr st.used (edgeKey e)⟩
  else ⟨fy.1, st.mst, st.used⟩

noncomputable def kruskalState (stars : List Star) : KState :=
  (sortByDistance (allPairsEdges stars)).foldl (kruskalStep stars.length)
    ⟨initUF stars, [], []⟩

noncomputable def kruskalMST (stars : List Star) : List Edge :=
  (kruskalState stars).mst

/-- The second pass adding extra short-range connections; returns the final
edge list, used-key set and count of added extras. -/
def addExtras (quota : Nat) : List Edge → List Edge → List String → Nat →
    List Edge × List String × Nat
  | [], mst, used, added => (mst, used, added)
  | e :: rest, mst, used, added =>
    if quota ≤ added then (mst, used, added)
    else if edgeKey e ∈ used then addExtras quota rest mst used added
    else addExtras quota rest (mst ++ [e]) (addStr used (edgeKey e)) (added + 1)

noncomputable def extraQuota (stars : List Star) : Nat :=
  (⌊((kruskalMST stars).length : ℝ) * EXTRA_CONNECTIONS_FACTOR⌋).toNat

noncomputable def lanesEdges (stars : List Star) : List Edge :=
  let ks := kruskalState stars
  (addExtras (extraQuota stars) (sortByDistance (shortEdgesOf stars)) ks.mst ks.used 0).1

noncomputable def generateHyperspaceLanes (stars : List Star) (u : Nat → String) :
    List HyperspaceLane :=
  (lanesEdges stars).mapIdx fun i e => ⟨u i, e.fromStarId, e.toStarId, e.distance⟩

/-! ## Name generation (nameGenerator.ts) -/

def starPrefixes : List String :=
  ["Alpha", "Beta", "Gamma", "Delta", "Epsilon", "Zeta", "Eta", "Theta", "Iota", "Kappa"]

def starRoots : List String :=
  ["Centauri", "Draconis", "Cygni", "Eridani", "Lyrae", "Orionis", "Persei", "Tauri", "Ursae", "Vega"]

def starSuffixes : List String :=
  ["Prime", "Major", "Minor", "Superior", "Inferior", "Maxima", "Minima", "Nova", "Prima", "Ultima"]

def planetLetters : List String := ["B", "C", "D", "E", "F", "G", "H", "I", "J"]

/-- The `starTypeSpecificNames` table, as (prefixes, roots, suffixes);
only the `NEUTRON` and `PULSAR` rows are consulted by `generateStarName`. -/
def starTypeSpecificNames : StarType → List String × List String × List String
  | .NEUTRON => (["PSR", "NS", "J"], ["1234", "5678", "2000", "1900", "0120"],
      ["+6789", "-3456", "+2345", "-7890", "+1234"])
  | .PULSAR => (["PSR", "MSP", "B"], ["1919", "0531", "0833", "1937", "0329"],
      ["+21", "-65", "+45", "-23", "+10"])
  | _ => (["NGC", "M", "TON", "PKS", "Cygnus"], ["3783", "87", "618", "1461", "X"],
      ["-1", "*", "-A", "-B", ""])

/-- `getRandomElement`: `array[Math.floor(Math.random() * array.length)]`. -/
def getRandomElement (l : List String) (s : Nat → ℝ) (st : St) : String × St :=
  let r := randR s st
  (l.getD (⌊r.1 * (l.length : ℝ)⌋).toNat "", r.2)

def generateStarName (starType : StarType) (s : Nat → ℝ) (st : St) : String × St :=
  if starType = .NEUTRON ∨ starType = .PULSAR then
    let components := starTypeSpecificNames starType
    let p := getRandomElement components.1 s st
    let r := getRandomElement components.2.1 s p.2
    let sf := getRandomElement components.2.2 s r.2
    (p.1 ++ " " ++ r.1 ++ sf.1, sf.2)
  else
    let u1 := randR s st
    let usePre := u1.1 > 1 / 2
    let u2 := randR s u1.2
    let useSuf := u2.1 > 7 / 10
    let step1 : String × St :=
      if usePre then
        let p := getRandomElement starPrefixes s u2.2
        (p.1 ++ " ", p.2)
      else ("", u2.2)
    let step2 := getRandomElement starRoots s step1.2
    let name2 := step1.1 ++ step2.1
    if useSuf then
      let sf := getRandomElement starSuffixes s step2.2
      (name2 ++ " " ++ sf.1, sf.2)
    else (name2, step2.2)

/-- JS `starName.startsWith(p)`, on the character lists (ASCII strings). -/
def strStarts (starName p : String) : Bool :=
  p.data.isPrefixOf starName.data

def generatePlanetName (planetType : PlanetType) (starName : String) (planetIndex : Nat) :
    String :=
  if strStarts starName "PSR" ∨ strStarts starName "NS" ∨ strStarts starName "MSP" ∨
      strStarts starName "B" then
    starName ++ " " ++ String.mk [Char.ofNat (97 + planetIndex)]
  else
    let hasSpace := starName.data.contains ' '
    let letter := planetLetters.getD planetIndex
      (planetLetters.getD (planetLetters.length - 1) "")
    if hasSpace then starName ++ " " ++ letter else starName ++ "-" ++ letter

/-! ## Planets, resources and star systems (galaxyGenerator.ts) -/

structure PlanetTypeInfo where
  type : PlanetType
  probability : ℝ

instance : Inhabited PlanetTypeInfo := ⟨⟨.ROCKY, 0⟩⟩

structure ResourceTypeInfo where
  type : ResourceType
  probability : ℝ

instance : Inhabited ResourceTypeInfo := ⟨⟨.IRON, 0⟩⟩

def PLANET_TYPES : List PlanetTypeInfo :=
  [⟨.ROCKY, 4/10⟩, ⟨.GAS_GIANT, 2/10⟩, ⟨.ICE, 2/10⟩, ⟨.DESERT, 1/10⟩, ⟨.OCEAN, 1/10⟩]

def PLANET_RESOURCES : PlanetType → List ResourceTypeInfo
  | .ROCKY =>
    [⟨.IRON, 4/10⟩, ⟨.COPPER, 3/10⟩, ⟨.GOLD, 2/10⟩, ⟨.PLATINUM, 2/10⟩, ⟨.RARE_EARTH, 3/10⟩,
     ⟨.TITANIUM, 2/10⟩, ⟨.URANIUM, 1/10⟩, ⟨.WATER, 3/10⟩, ⟨.SILICON, 4/10⟩, ⟨.CARBON, 3/10⟩]
  | .GAS_GIANT =>
    [⟨.METHANE, 8/10⟩, ⟨.AMMONIA, 6/10⟩, ⟨.HELIUM_3, 4/10⟩, ⟨.DEUTERIUM, 5/10⟩,
     ⟨.FUEL, 7/10⟩, ⟨.PLASMA, 3/10⟩, ⟨.HYDROGEN, 9/10⟩]
  | .ICE =>
    [⟨.WATER, 8/10⟩, ⟨.ICE, 9/10⟩, ⟨.METHANE, 4/10⟩, ⟨.AMMONIA, 3/10⟩,
     ⟨.DEUTERIUM, 2/10⟩, ⟨.HELIUM_3, 1/10⟩]
  | .DESERT =>
    [⟨.IRON, 3/10⟩, ⟨.COPPER, 2/10⟩, ⟨.GOLD, 2/10⟩, ⟨.SILICON, 4/10⟩,
     ⟨.WATER, 1/10⟩, ⟨.RARE_EARTH, 2/10⟩]
  | .OCEAN =>
    [⟨.WATER, 9/10⟩, ⟨.DEUTERIUM, 4/10⟩, ⟨.ORGANICS, 6/10⟩, ⟨.FOOD, 7/10⟩, ⟨.RARE_EARTH, 2/10⟩]

def MAX_PLANETS_PER_SYSTEM : Nat := 5

/-- The accumulating-sum loop of `selectRandomType`, with the `options[0]`
fallthrough. -/
def selectRandomTypeGo {α : Type} (random : ℝ) (prob : α → ℝ) :
    List α → ℝ → Option α
  | [], _ => none
  | o :: rest, sum =>
    if random ≤ sum + prob o then some o else selectRandomTypeGo random prob rest (sum + prob o)

def selectRandomType {α : Type} [Inhabited α] (options : List α) (prob : α → ℝ)
    (s : Nat → ℝ) (st : St) : α × St :=
  let r := randR s st
  ((selectRandomTypeGo r.1 prob options 0).getD (options.getD 0 default), r.2)

/-- The per-resource-type `switch` on amount and regeneration rate; the two
`Math.random()` draws happen in amount-then-rate order. -/
def resourceAmountRegen (t : ResourceType) (s : Nat → ℝ) (st : St) : (ℝ × ℝ) × St :=
  let a := randR s st
  let b := randR s a.2
  match t with
  | .WATER => ((5000 + a.1 * 15000, 10 + b.1 * 20), b.2)
  | .FUEL => ((2000 + a.1 * 8000, 5 + b.1 * 15), b.2)
  | .FOOD => ((1000 + a.1 * 4000, 8 + b.1 * 16), b.2)
  | .IRON | .COPPER | .GOLD | .PLATINUM => ((500 + a.1 * 2000, 1 + b.1 * 5), b.2)
  | .RARE_EARTH => ((100 + a.1 * 500, 1/2 + b.1 * 2), b.2)
  | .HELIUM_3 | .DEUTERIUM => ((50 + a.1 * 200, 1/5 + b.1 * 1), b.2)
  | _ => ((1000 + a.1 * 5000, 2 + b.1 * 8), b.2)

/-- The resource-drawing loop of `generateResources`: picks a random index
into the remaining available types, `splice`s it out, draws its amounts. -/
def resLoop (s : Nat → ℝ) : Nat → List ResourceTypeInfo → List Resource → St →
    List Resource × St
  | 0, _, acc, st => (acc, st)
  | n + 1, availableTypes, acc, st =>
    if availableTypes.length = 0 then (acc, st)
    else
      let r := randR s st
      let randomIndex := (⌊r.1 * (availableTypes.length : ℝ)⌋).toNat
      let rti := availableTypes.getD randomIndex ⟨.IRON, 0⟩
      let availableTypes' := availableTypes.eraseIdx randomIndex
      let ar := resourceAmountRegen rti.type s r.2
      resLoop s n availableTypes' (acc ++ [⟨rti.type, ar.1.1, ar.1.2⟩]) ar.2

def generateResources (planetType : PlanetType) (s : Nat → ℝ) (st : St) :
    List Resource × St :=
  let r := randR s st
  let numResources := 1 + (⌊r.1 * 3⌋).toNat
  resLoop s numResources (PLANET_RESOURCES planetType) [] r.2

def generatePlanet (starName : String) (index : Nat) (starId : String)
    (s : Nat → ℝ) (u : Nat → String) (st : St) : Planet × St :=
  let pt := selectRandomType PLANET_TYPES (fun o => o.probability) s st
  let planetType := pt.1.type
  let pid := freshId u pt.2
  let sz := randR s pid.2
  let orb := randR s sz.2
  let res := generateResources planetType s orb.2
  ({ id := pid.1, name := generatePlanetName planetType starName index, type := planetType,
     size := 1/2 + sz.1 * (3/2), orbitSpeed := 1/10 + orb.1 * (5/10), resources := res.1,
     buildings := [], starId := starId, resourcePatches := [] }, res.2)

def genPlanets (star : Star) (s : Nat → ℝ) (u : Nat → String) :
    Nat → Nat → St → List Planet × St
  | 0, _, st => ([], st)
  | n + 1, i, st =>
    let p := generatePlanet star.name i star.id s u st
    let rest := genPlanets star s u n (i + 1) p.2
    (p.1 :: rest.1, rest.2)

def generateStarSystem (star : Star) (s : Nat → ℝ) (u : Nat → String) (st : St) :
    StarSystem × St :=
  let r := randR s st
  let numPlanets := 1 + (⌊r.1 * (MAX_PLANETS_PER_SYSTEM : ℝ)⌋).toNat
  let planets := genPlanets star s u numPlanets 0 r.2
  let sid := freshId u planets.2
  let res := generateResources (planets.1.headI.type) s sid.2
  ({ id := sid.1, star := star, planets := planets.1, resources := res.1 }, res.2)

/-! ## Starting system selection (startingSystem.ts) -/

def MIN_DISTANCE_FROM_FACTIONS : ℝ := 300

/-- The repeated black-hole / neutron-star / pulsar check. -/
def isExotic (t : StarType) : Bool :=
  t = .BLACK_HOLE ∨ t = .NEUTRON ∨ t = .PULSAR

/-- The inner faction-distance loop shared by the three tiers: `false` as
soon as some controlled system (found in `systems`) is closer than
`threshold`. -/
def factionDistanceOk (systems : List StarSystem) (factions : List Faction)
    (sys : StarSystem) (threshold : ℝ) : Bool :=
  factions.all fun faction => faction.controlledSystems.all fun controlledId =>
    match systems.find? (fun s2 => s2.star.id == controlledId) with
    | some controlledSystem =>
      decide (¬ (calculateDistance sys.star.position controlledSystem.star.position < threshold))
    | none => true

def startingScore (sys : StarSystem) : Nat :=
  sys.planets.length * 2 + sys.resources.length

/-- The `minDistance` fold of the last-resort tier (`Infinity` = `⊤`). -/
def minDistToFactions (systems : List StarSystem) (factions : List Faction)
    (sys : StarSystem) : EReal :=
  factions.foldl (fun m faction =>
    faction.controlledSystems.foldl (fun m2 controlledId =>
      match systems.find? (fun s2 => s2.star.id == controlledId) with
      | some controlledSystem =>
        min m2 ((calculateDistance sys.star.position controlledSystem.star.position : ℝ) : EReal)
      | none => m2) m) ⊤

/-- The body of the last-resort loop: skip exotic stars, otherwise keep
the system with the largest minimum distance to faction territory. -/
def lastResortStep (systems : List StarSystem) (factions : List Faction)
    (acc : StarSystem × EReal) (sys : StarSystem) : StarSystem × EReal :=
  if isExotic sys.star.type then acc
  else
    let minDistance := minDistToFactions systems factions sys
    if acc.2 < minDistance then (sys, minDistance) else acc

def selectStartingSystem (systems : List StarSystem) (factions : List Faction)
    (s : Nat → ℝ) (st : St) : Option StarSystem :=
  let potentialSystems := systems.filter fun sys =>
    !(isExotic sys.star.type) && !(decide (sys.planets.length < 2)) &&
      factionDistanceOk systems factions sys MIN_DISTANCE_FROM_FACTIONS
  let sortedSystems := potentialSystems.mergeSort fun a b =>
    decide (startingScore b ≤ startingScore a)
  if 0 < sortedSystems.length then
    let topSystems := sortedSystems.take (min 5 sortedSystems.length)
    let r := randR s st
    some (topSystems.getD (⌊r.1 * (topSystems.length : ℝ)⌋).toNat default)
  else
    let backupSystems := systems.filter fun sys =>
      !(isExotic sys.star.type) &&
        factionDistanceOk systems factions sys (MIN_DISTANCE_FROM_FACTIONS * (3/4))
    if 0 < backupSystems.length then
      let r := randR s st
      some (backupSystems.getD (⌊r.1 * (backupSystems.length : ℝ)⌋).toNat default)
    else
      match systems with
      | [] => none
      | s0 :: _ =>
        some (systems.foldl (lastResortStep systems factions) (s0, ⊥)).1

/-! ## Faction generation (factionGenerator.ts) -/

def FACTION_COLORS : List String :=
  ["#FF4D4D", "#4D4DFF", "#4DFF4D", "#FFD700", "#FF4DFF",
   "#4DFFFF", "#FF8C1A", "#8C1AFF", "#1AFF8C", "#FFB366"]

def FACTION_TYPES : List FactionType :=
  [.CORPORATE, .SCIENTIFIC, .MILITARISTIC, .PEACEFUL, .XENOPHOBIC, .RELIGIOUS, .HIVE_MIND]

/-- The per-type (prefixes, suffixes) word lists of `generateFactionName`. -/
def factionNameLists : FactionType → List String × List String
  | .CORPORATE =>
    (["Stellar", "Galactic", "Nova", "Quantum", "Cosmic"],
     ["Corp", "Industries", "Enterprises", "Holdings", "Incorporated"])
  | .SCIENTIFIC =>
    (["Advanced", "Progressive", "Innovative", "Enlightened", "Evolved"],
     ["Research", "Academy", "Institute", "Foundation", "Collective"])
  | .MILITARISTIC =>
    (["Iron", "Steel", "War", "Battle", "Storm"],
     ["Legion", "Armada", "Empire", "Command", "Force"])
  | .PEACEFUL =>
    (["Harmonious", "United", "Peaceful", "Prosperous", "Balanced"],
     ["Alliance", "Federation", "Union", "Coalition", "Concordat"])
  | .XENOPHOBIC =>
    (["Pure", "Isolated", "Sovereign", "Independent", "Autonomous"],
     ["Domain", "Territory", "State", "Realm", "Nation"])
  | .RELIGIOUS =>
    (["Divine", "Sacred", "Holy", "Blessed", "Celestial"],
     ["Order", "Church", "Temple", "Faith", "Covenant"])
  | .HIVE_MIND =>
    (["Unity", "Collective", "Swarm", "Hive", "Nexus"],
     ["Mind", "Consciousness", "Entity", "Being", "Overmind"])

def generateFactionName (t : FactionType) (s : Nat → ℝ) (st : St) : String × St :=
  let ls := factionNameLists t
  let p := getRandomElement ls.1 s st
  let sf := getRandomElement ls.2 s p.2
  (p.1 ++ " " ++ sf.1, sf.2)

def clamp01 (v : ℝ) : ℝ := max 0 (min 1 v)

def generateTraits (t : FactionType) (s : Nat → ℝ) (st : St) : FactionTraits × St :=
  let r1 := randR s st
  let r2 := randR s r1.2
  let r3 := randR s r2.2
  let r4 := randR s r3.2
  let r5 := randR s r4.2
  let base : FactionTraits :=
    { expansionist := 3/10 + r1.1 * (4/10), diplomatic := 3/10 + r2.1 * (4/10),
      aggressive := 3/10 + r3.1 * (4/10), technological := 3/10 + r4.1 * (4/10),
      economic := 3/10 + r5.1 * (4/10) }
  let adjusted : FactionTraits :=
    match t with
    | .CORPORATE => { base with
        economic := base.economic + 3/10, diplomatic := base.diplomatic + 2/10 }
    | .SCIENTIFIC => { base with
        technological := base.technological + 3/10, aggressive := base.aggressive - 2/10 }
    | .MILITARISTIC => { base with
        aggressive := base.aggressive + 3/10, expansionist := base.expansionist + 2/10 }
    | .PEACEFUL => { base with
        diplomatic := base.diplomatic + 3/10, aggressive := base.aggressive - 3/10 }
    | .XENOPHOBIC => { base with
        diplomatic := base.diplomatic - 3/10, aggressive := base.aggressive + 2/10 }
    | .RELIGIOUS => { base with
        diplomatic := base.diplomatic + 2/10, expansionist := base.expansionist + 2/10 }
    | .HIVE_MIND => { base with
        expansionist := base.expansionist + 3/10, diplomatic := base.diplomatic - 2/10 }
  ({ expansionist := clamp01 adjusted.expansionist, diplomatic := clamp01 adjusted.diplomatic,
     aggressive := clamp01 adjusted.aggressive, technological := clamp01 adjusted.technological,
     economic := clamp01 adjusted.economic }, r5.2)

/-- The colour re-draw `while` loop of `generateFaction`, with fuel; `none`
models a run of the source that never terminates. -/
def pickColorLoop (usedColors : List String) (s : Nat → ℝ) :
    Nat → String → St → Option (String × St)
  | 0, color, st =>
    if color ∈ usedColors ∧ usedColors.length < FACTION_COLORS.length then none
    else some (color, st)
  | fuel + 1, color, st =>
    if color ∈ usedColors ∧ usedColors.length < FACTION_COLORS.length then
      let r := randR s st
      pickColorLoop usedColors s fuel
        (FACTION_COLORS.getD (⌊r.1 * (FACTION_COLORS.length : ℝ)⌋).toNat "") r.2
    else some (color, st)

def generateFaction (t : FactionType) (homeSystem : Star) (usedColors : List String)
    (s : Nat → ℝ) (u : Nat → String) (fuel : Nat) (st : St) : Option (Faction × St) :=
  let r0 := randR s st
  let c0 := FACTION_COLORS.getD (⌊r0.1 * (FACTION_COLORS.length : ℝ)⌋).toNat ""
  match pickColorLoop usedColors s fuel c0 r0.2 with
  | none => none
  | some (color, st2) =>
    let fid := freshId u st2
    let nm := generateFactionName t s fid.2
    let tr := generateTraits t s nm.2
    some ({ id := fid.1, name := nm.1, type := t, traits := tr.1, color := color,
            homeSystemId := homeSystem.id, controlledSystems := [homeSystem.id],
            relations := [] }, tr.2)

/-! ### Territory expansion (expandFactionTerritory) -/

def MAX_EXPANSION_DISTANCE : ℝ := 150

def ADJACENT_DISTANCE : ℝ := 100

structure ExpandStats where
  adjacentCount : Nat
  nearbyCount : Nat
  minDistance : EReal
  totalDistance : ℝ
  validStar : Bool

/-- The inner controlled-star distance scan for one expansion candidate. -/
def expandStats (faction : Faction) (stars : List Star) (cand : Star) : ExpandStats :=
  faction.controlledSystems.foldl (fun acc controlledId =>
    match stars.find? (fun s2 => s2.id == controlledId) with
    | some controlledStar =>
      let d := calculateDistance cand.position controlledStar.position
      if d < MAX_EXPANSION_DISTANCE then
        { adjacentCount := acc.adjacentCount + (if d < ADJACENT_DISTANCE then 1 else 0),
          nearbyCount := acc.nearbyCount + 1,
          minDistance := min acc.minDistance (d : EReal),
          totalDistance := acc.totalDistance + d,
          validStar := true }
      else acc
    | none => acc) ⟨0, 0, ⊤, 0, false⟩

/-- The candidate score; only evaluated when `validStar` holds, in which
case `minDistance` is finite and `toReal` recovers the JS value. -/
def expandScore (stats : ExpandStats) : ℝ :=
  (stats.adjacentCount : ℝ) * 2000 + (stats.nearbyCount : ℝ) * 500 -
    (stats.totalDistance / (stats.nearbyCount : ℝ)) * 2 - stats.minDistance.toReal * 3

def bestStarStep (faction : Faction) (stars : List Star)
    (acc : Option Star × EReal) (cand : Star) : Option Star × EReal :=
  let stats := expandStats faction stars cand
  if stats.validStar then
    let score := expandScore stats
    if acc.2 < (score : EReal) then (some cand, (score : EReal)) else acc
  else acc

def pickBestStar (faction : Faction) (stars : List Star) (unclaimed : List Star) :
    Option Star :=
  (unclaimed.foldl (bestStarStep faction stars) (none, ⊥)).1

/-- Territory-centre computation of the fallback branch (real division by
zero yields the junk value `0`, only reachable when no controlled id
resolves to a star). -/
def territoryCenter (faction : Faction) (stars : List Star) : ℝ × ℝ :=
  let acc := faction.controlledSystems.foldl (fun (a : ℝ × ℝ × Nat) controlledId =>
    match stars.find? (fun s2 => s2.id == controlledId) with
    | some controlledStar =>
      (a.1 + controlledStar.position.x, a.2.1 + controlledStar.position.y, a.2.2 + 1)
    | none => a) (0, 0, 0)
  (acc.1 / (acc.2.2 : ℝ), acc.2.1 / (acc.2.2 : ℝ))

def fallbackStarStep (center : ℝ × ℝ) (acc : Option Star × EReal) (cand : Star) :
    Option Star × EReal :=
  let d := Real.sqrt ((cand.position.x - center.1) ^ 2 + (cand.position.y - center.2) ^ 2)
  if (d : EReal) < acc.2 then (some cand, (d : EReal)) else acc

def pickFallbackStar (center : ℝ × ℝ) (unclaimed : List Star) : Option Star :=
  (unclaimed.foldl (fallbackStarStep center) (none, ⊤)).1

/-- The expansion `while` loop.  Fuel is `unclaimed.length + 1`; each
iteration that continues removes one unclaimed star, so the fuel is never
exhausted.  JS `Set.delete(bestStar)` removes the picked star object,
modelled as erasing the first star with the picked id. -/
def expandLoop (stars : List Star) (targetSize : Nat) :
    Nat → Faction → List Star → Faction
  | 0, faction, _ => faction
  | fuel + 1, faction, unclaimed =>
    if faction.controlledSystems.length < targetSize ∧ 0 < unclaimed.length then
      match pickBestStar faction stars unclaimed with
      | some bestStar =>
        expandLoop stars targetSize fuel
          { faction with controlledSystems := addStr faction.controlledSystems bestStar.id }
          (unclaimed.eraseP fun t => t.id == bestStar.id)
      | none =>
        match pickFallbackStar (territoryCenter faction stars) unclaimed with
        | some fallbackStar =>
          expandLoop stars targetSize fuel
            { faction with controlledSystems := addStr faction.controlledSystems fallbackStar.id }
            (unclaimed.eraseP fun t => t.id == fallbackStar.id)
        | none => faction
    else faction

def expandFactionTerritory (faction : Faction) (stars : List Star)
    (allFactions : List Faction) (targetSize : Nat) : Faction :=
  let unclaimedStars := stars.filter fun star =>
    !(allFactions.any fun f => decide (star.id ∈ f.controlledSystems))
  expandLoop stars targetSize (unclaimedStars.length + 1) faction unclaimedStars

/-! ### Relations and the top-level generator (generateInitialFactions) -/

/-- The directed relation score of `faction` towards `otherFaction`. -/
def relationScore (stars : List Star) (faction otherFaction : Faction) : ℝ :=
  let s1 := (faction.traits.diplomatic + otherFaction.traits.diplomatic) * 20
  let s2 := s1 - (faction.traits.aggressive + otherFaction.traits.aggressive) * 15
  let s3 := if faction.type = otherFaction.type then s2 + 20 else s2
  let sharedBorders := faction.controlledSystems.any fun systemId =>
    otherFaction.controlledSystems.any fun otherSystemId =>
      match stars.find? (fun s2 => s2.id == systemId),
          stars.find? (fun s2 => s2.id == otherSystemId) with
      | some system1, some system2 =>
        decide (calculateDistance system1.position system2.position < 300)
      | _, _ => false
  let s4 := if sharedBorders then s3 - 15 else s3
  max (-100) (min 100 s4)

/-- JS `Map.set` on an insertion-ordered association list. -/
def mapSet (m : List (String × ℝ)) (k : String) (v : ℝ) : List (String × ℝ) :=
  if m.any fun p => p.1 == k then m.map fun p => if p.1 = k then (k, v) else p
  else m ++ [(k, v)]

def factionRelations (stars : List Star) (factions : List Faction)
    (faction : Faction) : List (String × ℝ) :=
  factions.foldl (fun m otherFaction =>
    if faction.id ≠ otherFaction.id then
      mapSet m otherFaction.id (relationScore stars faction otherFaction)
    else m) faction.relations

def relationsPhase (stars : List Star) (factions : List Faction) : List Faction :=
  factions.map fun faction =>
    { faction with relations := factionRelations stars factions faction }

/-- The `minDistanceToUsed` fold of the home-star search. -/
def minDistToUsed (stars : List Star) (usedStars : List String) (candidate : Star) : EReal :=
  usedStars.foldl (fun m usedId =>
    match stars.find? (fun s2 => s2.id == usedId) with
    | some usedStar =>
      min m ((calculateDistance candidate.position usedStar.position : ℝ) : EReal)
    | none => m) ⊤

/-- The ten-attempt candidate loop picking the home star farthest from the
already-used ones (`bestStar = null` is `none`, `-Infinity` is `⊥`). -/
def homeAttempts (stars : List Star) (usedStars : List String) (s : Nat → ℝ) :
    Nat → Option Star → EReal → St → Option Star × St
  | 0, best, _, st => (best, st)
  | k + 1, best, maxMin, st =>
    let r := randR s st
    let candidate := stars.getD ((⌊r.1 * ((stars.length : ℝ) - 1)⌋).toNat + 1) default
    if candidate.id ∈ usedStars then homeAttempts stars usedStars s k best maxMin r.2
    else
      let mdu := minDistToUsed stars usedStars candidate
      if maxMin < mdu then homeAttempts stars usedStars s k (some candidate) mdu r.2
      else homeAttempts stars usedStars s k best maxMin r.2

/-- The fallback `do … while` re-draw for a home star, with fuel. -/
def fallbackHome (stars : List Star) (usedStars : List String) (s : Nat → ℝ) :
    Nat → St → Option (Star × St)
  | 0, _ => none
  | fuel + 1, st =>
    let r := randR s st
    let c := stars.getD ((⌊r.1 * ((stars.length : ℝ) - 1)⌋).toNat + 1) default
    if c.id ∈ usedStars then fallbackHome stars usedStars s fuel r.2 else some (c, r.2)

/-- The ten-attempt search followed (only when it found nothing) by the
fallback re-draw: the home star of one loop iteration. -/
def pickHomeStar (stars : List Star) (usedStars : List String) (s : Nat → ℝ)
    (fuel : Nat) (st : St) : Option (Star × St) :=
  let att := homeAttempts stars usedStars s 10 none ⊥ st
  match att.1 with
  | some b => some (b, att.2)
  | none => fallbackHome stars usedStars s fuel att.2

/-- The `for (let i = 0; i < 3; i++)` faction-creation loop. -/
def buildFactions (stars : List Star) (s : Nat → ℝ) (u : Nat → String) (fuel : Nat) :
    Nat → List String → List String → St → Option (List Faction × St)
  | 0, _, _, st => some ([], st)
  | k + 1, usedStars, usedColors, st =>
    match pickHomeStar stars usedStars s fuel st with
    | none => none
    | some (bestStar, st2) =>
      let rt := randR s st2
      let ftype := FACTION_TYPES.getD (⌊rt.1 * (FACTION_TYPES.length : ℝ)⌋).toNat default
      match generateFaction ftype bestStar usedColors s u fuel rt.2 with
      | none => none
      | some (faction, st4) =>
        match buildFactions stars s u fuel k (addStr usedStars bestStar.id)
          (addStr usedColors faction.color) st4 with
        | none => none
        | some (rest, st5) => some (faction :: rest, st5)

/-- The `factions.forEach(expandFactionTerritory…)` pass: each faction is
expanded in order against the current state of the whole faction array. -/
def expandAllGo (stars : List Star) (targetSize : Nat) :
    List Faction → List Faction → List Faction
  | done, [] => done
  | done, f :: rest =>
    expandAllGo stars targetSize
      (done ++ [expandFactionTerritory f stars (done ++ f :: rest) targetSize]) rest

def generateInitialFactions (stars : List Star) (s : Nat → ℝ) (u : Nat → String)
    (fuel : Nat) : Option (List Faction) :=
  let targetSize := (⌊((stars.length : ℝ) - 1) / 10⌋).toNat
  (buildFactions stars s u fuel 3 [] [] ⟨0, 0⟩).map fun res =>
    relationsPhase stars (expandAllGo stars targetSize [] res.1)

/-! ## Concrete inputs used by counterexamples and witnesses -/

def st0 : St := ⟨0, 0⟩

/-- Random stream producing the ordinary-path star name "Beta Centauri". -/
def s9 : Nat → ℝ := fun n =>
  match n with
  | 0 => 3/5
  | 2 => 3/20
  | _ => 0

/-- Random stream for the C6 counterexample run of `generateStarSystem`:
one planet with one resource, then a two-resource system-level list. -/
def s6 : Nat → ℝ := fun n => if n = 8 then 1/3 else 0

def u6 : Nat → String := fun _ => "u"

def star0 : Star := ⟨"a", ⟨0, 0⟩, "", .RED_DWARF, 0, ""⟩

end

/-! ## Claim C9: planet naming -/

/-- C9 counterexample: the ordinary (non-catalog) star-naming path can
produce "Beta Centauri" (prefix draw "Beta"), and `generatePlanetName`
then appends a lowercase 'a' — not the uppercase 'B' the claim asserts
for every ordinary-path name — because the catalog detection matches any
name starting with "B". -/
theorem claim_C9_counterexample :
    (generateStarName .RED_DWARF s9 st0).1 = "Beta Centauri" ∧
    generatePlanetName .ROCKY "Beta Centauri" 0 ≠ "Beta Centauri B" ∧
    generatePlanetName .ROCKY "Beta Centauri" 0 = "Beta Centauri a" := by
  refine ⟨?_, by decide, by decide⟩
  show (generateStarName .RED_DWARF s9 st0).1 = "Beta Centauri"
  norm_num +decide [generateStarName, getRandomElement, randR, s9, st0, starPrefixes, starRoots]

/-- C9 (amended): for every star name that does not start with "PSR",
"NS", "MSP" or "B" (in particular every ordinary-path name not beginning
with "Beta"), `generatePlanetName` appends the uppercase letter
`planetLetters[index]` (B for index 0, C, …, J as final fallback), joined
by a space when the star name contains a space and by a hyphen otherwise;
names matching one of those catalog prefixes instead get a lowercase
letter. -/
theorem claim_C9_amended (pt : PlanetType) (starName : String) (i : Nat)
    (h : ¬ (strStarts starName "PSR" ∨ strStarts starName "NS" ∨
      strStarts starName "MSP" ∨ strStarts starName "B")) :
    generatePlanetName pt starName i =
      if starName.data.contains ' ' then
        starName ++ " " ++ planetLetters.getD i "J"
      else starName ++ "-" ++ planetLetters.getD i "J" := by
  have hJ : planetLetters.getD (planetLetters.length - 1) "" = "J" := by decide
  simp only [generatePlanetName, h, if_false, hJ]

/-- C9 witness: the amended claim at the ordinary-path name
"Alpha Centauri" and planet index 0. -/
theorem claim_C9_witness :
    generatePlanetName .ROCKY "Alpha Centauri" 0 = "Alpha Centauri B" :=
  (claim_C9_amended .ROCKY "Alpha Centauri" 0 (by decide)).trans (by decide)

/-! ## Claim C6: system-level resources -/

/-- Evaluation of `generateStarSystem` on the C6 counterexample input: the
single planet draws the one-resource list `[IRON]`, while the system-level
draw at the same planet type independently yields two resources. -/
theorem genStarSystem_eval :
    (generateStarSystem star0 s6 u6 st0).1.planets.headI.resources =
      [⟨.IRON, 500, 1⟩] ∧
    (generateStarSystem star0 s6 u6 st0).1.resources =
      [⟨.IRON, 500, 1⟩, ⟨.COPPER, 500, 1⟩] := by
  norm_num +decide [generateStarSystem, genPlanets, generatePlanet, generateResources,
    resLoop, resourceAmountRegen, selectRandomType, selectRandomTypeGo, randR, freshId,
    s6, u6, star0, st0, PLANET_TYPES, PLANET_RESOURCES, MAX_PLANETS_PER_SYSTEM]

/-- C6 counterexample: on a concrete run, the system-level `resources`
list (two entries) differs from `planets[0].resources` (one entry): the
two lists are sampled independently. -/
theorem claim_C6_counterexample :
    (generateStarSystem star0 s6 u6 st0).1.resources ≠
      (generateStarSystem star0 s6 u6 st0).1.planets.headI.resources := by
  rw [genStarSystem_eval.1, genStarSystem_eval.2]
  simp

/-- C6 (amended): the system-level `resources` list of every
`generateStarSystem` output is produced by a fresh `generateResources`
call on the first planet's type (at the stream position reached after the
planets were generated) — derived from `planets[0]`'s type, but not equal
to `planets[0].resources` in general. -/
theorem claim_C6_amended (star : Star) (s : Nat → ℝ) (u : Nat → String) (st : St) :
    ∃ st2 : St, (generateStarSystem star s u st).1.resources =
      (generateResources ((generateStarSystem star s u st).1.planets.headI.type) s st2).1 := by
  refine ⟨(freshId u (genPlanets star s u
    (1 + (⌊(randR s st).1 * (MAX_PLANETS_PER_SYSTEM : ℝ)⌋).toNat) 0 (randR s st).2).2).2, ?_⟩
  simp only [generateStarSystem]

/-! ## Lane-list structure: shared lemmas for C7, C8 -/

theorem mem_addStr_self (l : List String) (x : String) : x ∈ addStr l x := by
  by_cases h : x ∈ l <;> simp [addStr, h]

theorem mem_addStr_of_mem {l : List String} {y : String} (x : String) (h : y ∈ l) :
    y ∈ addStr l x := by
  by_cases hx : x ∈ l <;> simp [addStr, hx, h]

/-- The Kruskal fold only appends to the accumulated MST edge list, and
what it appends is a subsequence of the processed edge list. -/
theorem kruskalFold_mst_sublist (n : Nat) (l : List Edge) : ∀ st : KState,
    ∃ m', (l.foldl (kruskalStep n) st).mst = st.mst ++ m' ∧ m'.Sublist l := by
  induction l with
  | nil => exact fun st => ⟨[], by simp⟩
  | cons e l ih =>
    intro st
    obtain ⟨m', hm', hsub⟩ := ih (kruskalStep n st e)
    simp only [List.foldl_cons] at *
    by_cases hc : (st.uf.find n e.fromStarId).2 ≠
        (((st.uf.find n e.fromStarId).1.find n e.toStarId)).2
    · refine ⟨e :: m', ?_, hsub.cons₂ e⟩
      rw [hm']
      simp [kruskalStep, hc]
    · refine ⟨m', ?_, hsub.cons e⟩
      rw [hm']
      simp [kruskalStep, hc]

theorem kruskalFold_used_mono (n : Nat) (l : List Edge) : ∀ (st : KState) (k : String),
    k ∈ st.used → k ∈ (l.foldl (kruskalStep n) st).used := by
  induction l with
  | nil => exact fun st k hk => hk
  | cons e l ih =>
    intro st k hk
    refine ih (kruskalStep n st e) k ?_
    by_cases hc : (st.uf.find n e.fromStarId).2 ≠
        ((st.uf.find n e.fromStarId).1.find n e.toStarId).2
    · simpa [kruskalStep, hc] using mem_addStr_of_mem _ hk
    · simpa [kruskalStep, hc] using hk

/-- Every edge in the accumulated MST list has its key recorded in the
`usedEdges` set. -/
theorem kruskalFold_keys (n : Nat) (l : List Edge) : ∀ st : KState,
    (∀ m ∈ st.mst, edgeKey m ∈ st.used) →
    ∀ m ∈ (l.foldl (kruskalStep n) st).mst, edgeKey m ∈ (l.foldl (kruskalStep n) st).used := by
  induction l with
  | nil => exact fun st h => h
  | cons e l ih =>
    intro st h
    refine ih (kruskalStep n st e) ?_
    intro m hm
    by_cases hc : (st.uf.find n e.fromStarId).2 ≠
        ((st.uf.find n e.fromStarId).1.find n e.toStarId).2
    · have hm' : m ∈ st.mst ∨ m = e := by simpa [kruskalStep, hc] using hm
      rcases hm' with hm2 | rfl
      · simpa [kruskalStep, hc] using mem_addStr_of_mem _ (h m hm2)
      · simpa [kruskalStep, hc] using mem_addStr_self st.used (edgeKey m)
    · simp only [kruskalStep, hc] at hm ⊢
      exact h m (by simpa [kruskalStep, hc] using hm)

theorem mst_keys_used (stars : List Star) :
    ∀ m ∈ (kruskalState stars).mst, edgeKey m ∈ (kruskalState stars).used := by
  have := kruskalFold_keys stars.length (sortByDistance (allPairsEdges stars))
    ⟨initUF stars, [], []⟩ (by intro m hm; simp at hm)
  exact this

/-- Structure of the extra-connections pass: it appends a subsequence of
its input short-edge list whose keys were not yet used, and respects the
quota. -/
theorem addExtras_spec (quota : Nat) : ∀ (edges mst : List Edge) (used : List String)
    (added : Nat), added ≤ quota →
    ∃ extras, (addExtras quota edges mst used added).1 = mst ++ extras ∧
      extras.Sublist edges ∧
      (∀ e ∈ extras, edgeKey e ∉ used) ∧
      added + extras.length ≤ quota := by
  intro edges
  induction edges with
  | nil => exact fun mst used added h => ⟨[], by simp [addExtras], by simp, by simp, by simpa⟩
  | cons e rest ih =>
    intro mst used added h
    by_cases hq : quota ≤ added
    · exact ⟨[], by simp [addExtras, hq], by simp, by simp, by simpa⟩
    · by_cases hk : edgeKey e ∈ used
      · obtain ⟨extras, h1, h2, h3, h4⟩ := ih mst used added h
        exact ⟨extras, by simpa [addExtras, hq, hk] using h1, h2.cons e, h3, h4⟩
      · obtain ⟨extras, h1, h2, h3, h4⟩ := ih (mst ++ [e]) (addStr used (edgeKey e))
          (added + 1) (by omega)
        refine ⟨e :: extras, ?_, h2.cons₂ e, ?_, by simpa [Nat.add_comm, Nat.add_left_comm] using h4⟩
        · simpa [addExtras, hq, hk] using h1
        · intro f hf
          rcases List.mem_cons.mp hf with rfl | hf
          · exact hk
          · intro hfu
            exact h3 f hf (mem_addStr_of_mem _ hfu)

theorem sortByDistance_perm (edges : List Edge) : (sortByDistance edges).Perm edges :=
  List.mergeSort_perm edges _

theorem sortByDistance_sorted (edges : List Edge) :
    (sortByDistance edges).Pairwise fun a b => a.distance ≤ b.distance := by
  have h := @List.sorted_mergeSort Edge
    (fun a b : Edge => decide (a.distance ≤ b.distance))
    (fun a b c hab hbc => by
      simp only [decide_eq_true_eq] at *
      exact le_trans hab hbc)
    (fun a b => by
      simp only [Bool.or_eq_true, decide_eq_true_eq]
      exact le_total a.distance b.distance)
    edges
  exact h.imp fun hab => by simpa using hab

theorem mem_shortEdges {stars : List Star} {e : Edge} (h : e ∈ shortEdgesOf stars) :
    e ∈ allPairsEdges stars ∧ e.distance ≤ MAX_HYPERLANE_DISTANCE := by
  have := List.mem_filter.mp h
  simpa using this

/-- Decomposition of the final lane edge list: the Kruskal MST edges
followed by quota-bounded extras drawn in ascending order from the short
edges not already used. -/
theorem lanesEdges_decomp (stars : List Star) :
    ∃ extras : List Edge,
      lanesEdges stars = kruskalMST stars ++ extras ∧
      extras.length ≤ (⌊((kruskalMST stars).length : ℝ) * EXTRA_CONNECTIONS_FACTOR⌋).toNat ∧
      (∀ e ∈ extras, e.distance ≤ MAX_HYPERLANE_DISTANCE ∧ e ∉ kruskalMST stars) ∧
      extras.Sublist (sortByDistance (shortEdgesOf stars)) ∧
      extras.Pairwise fun a b => a.distance ≤ b.distance := by
  obtain ⟨extras, h1, h2, h3, h4⟩ := addExtras_spec (extraQuota stars)
    (sortByDistance (shortEdgesOf stars)) (kruskalState stars).mst
    (kruskalState stars).used 0 (Nat.zero_le _)
  refine ⟨extras, h1, ?_, ?_, h2, List.Pairwise.sublist h2 (sortByDistance_sorted _)⟩
  · simpa [extraQuota] using h4
  · intro e he
    constructor
    · exact (mem_shortEdges ((sortByDistance_perm _).mem_iff.mp (h2.mem he))).2
    · intro hmst
      exact h3 e he (mst_keys_used stars e hmst)

/-- C8: the returned lane list is exactly the Kruskal MST edges followed
by at most `floor(mstEdgeCount × 0.3)` extra edges, each of distance at
most 200 and not an MST edge, drawn as a subsequence of the short edges
sorted ascending by distance (hence themselves ascending). -/
theorem claim_C8 (stars : List Star) (u : Nat → String) :
    ∃ extras : List Edge,
      generateHyperspaceLanes stars u =
        ((kruskalMST stars ++ extras).mapIdx fun i e =>
          { id := u i, fromStarId := e.fromStarId, toStarId := e.toStarId,
            distance := e.distance }) ∧
      extras.length ≤ (⌊((kruskalMST stars).length : ℝ) * EXTRA_CONNECTIONS_FACTOR⌋).toNat ∧
      (∀ e ∈ extras, e.distance ≤ MAX_HYPERLANE_DISTANCE ∧ e ∉ kruskalMST stars) ∧
      extras.Sublist (sortByDistance (shortEdgesOf stars)) ∧
      extras.Pairwise fun a b => a.distance ≤ b.distance := by
  obtain ⟨extras, h1, h2, h3, h4, h5⟩ := lanesEdges_decomp stars
  refine ⟨extras, ?_, h2, h3, h4, h5⟩
  unfold generateHyperspaceLanes
  rw [h1]

/-! ## Claim C7: no self-lanes, no duplicate unordered pairs -/

/-- Two edges connect the same unordered pair of star ids. -/
def sameUpairE (e f : Edge) : Prop :=
  (e.fromStarId = f.fromStarId ∧ e.toStarId = f.toStarId) ∨
    (e.fromStarId = f.toStarId ∧ e.toStarId = f.fromStarId)

theorem sameUpairE_symm : ∀ {e f : Edge}, sameUpairE e f → sameUpairE f e := by
  rintro e f (⟨h1, h2⟩ | ⟨h1, h2⟩)
  · exact Or.inl ⟨h1.symm, h2.symm⟩
  · exact Or.inr ⟨h2.symm, h1.symm⟩

theorem notSameUpairE_symm : Symmetric fun e f => ¬ sameUpairE e f := by
  intro x y h hc
  exact h (sameUpairE_symm hc)

theorem allPairs_endpoints : ∀ {stars : List Star} {e : Edge},
    e ∈ allPairsEdges stars →
    e.fromStarId ∈ stars.map Star.id ∧ e.toStarId ∈ stars.map Star.id := by
  intro stars
  induction stars with
  | nil => intro e he; simp [allPairsEdges] at he
  | cons s rest ih =>
    intro e he
    simp only [allPairsEdges] at he
    rcases List.mem_append.mp he with hm | hm
    · obtain ⟨t, ht, rfl⟩ := List.mem_map.mp hm
      refine ⟨by simp, ?_⟩
      simp only [List.map_cons, List.mem_cons]
      exact Or.inr (List.mem_map.mpr ⟨t, ht, rfl⟩)
    · obtain ⟨h1, h2⟩ := ih hm
      constructor
      · simp only [List.map_cons, List.mem_cons]
        exact Or.inr h1
      · simp only [List.map_cons, List.mem_cons]
        exact Or.inr h2

theorem allPairs_ne {stars : List Star} (h : (stars.map Star.id).Nodup) :
    ∀ e ∈ allPairsEdges stars, e.fromStarId ≠ e.toStarId := by
  induction stars with
  | nil => intro e he; simp [allPairsEdges] at he
  | cons s rest ih =>
    simp only [List.map_cons, List.nodup_cons] at h
    intro e he
    simp only [allPairsEdges] at he
    rcases List.mem_append.mp he with hm | hm
    · obtain ⟨t, ht, rfl⟩ := List.mem_map.mp hm
      intro hab
      have hab' : s.id = t.id := hab
      exact h.1 (by rw [hab']; exact List.mem_map.mpr ⟨t, ht, rfl⟩)
    · exact ih h.2 e hm

theorem allPairs_pairwise {stars : List Star} (h : (stars.map Star.id).Nodup) :
    (allPairsEdges stars).Pairwise fun e f => ¬ sameUpairE e f := by
  induction stars with
  | nil => simp [allPairsEdges]
  | cons s rest ih =>
    simp only [List.map_cons, List.nodup_cons] at h
    have hrest : (rest.map Star.id).Nodup := h.2
    have hs : s.id ∉ rest.map Star.id := h.1
    show ((rest.map fun t => (⟨s.id, t.id, calculateDistance s.position t.position⟩ : Edge)) ++
      allPairsEdges rest).Pairwise _
    rw [List.pairwise_append]
    refine ⟨?_, ih hrest, ?_⟩
    · rw [List.pairwise_map]
      have hids : rest.Pairwise fun a b => a.id ≠ b.id := List.pairwise_map.mp hrest
      refine hids.imp_of_mem ?_
      intro a b ha hb hab
      rintro (⟨_, h2⟩ | ⟨h1, _⟩)
      · exact hab h2
      · have h1' : s.id = b.id := h1
        exact hs (by rw [h1']; exact List.mem_map.mpr ⟨b, hb, rfl⟩)
    · intro a ha b hb
      obtain ⟨t, ht, rfl⟩ := List.mem_map.mp ha
      obtain ⟨hb1, hb2⟩ := allPairs_endpoints hb
      rintro (⟨h1, _⟩ | ⟨h1, _⟩)
      · have h1' : s.id = b.fromStarId := h1
        exact hs (by rw [h1']; exact hb1)
      · have h1' : s.id = b.toStarId := h1
        exact hs (by rw [h1']; exact hb2)

theorem mst_sublist_sorted (stars : List Star) :
    (kruskalState stars).mst.Sublist (sortByDistance (allPairsEdges stars)) := by
  obtain ⟨m', hm', hsub⟩ := kruskalFold_mst_sublist stars.length
    (sortByDistance (allPairsEdges stars)) ⟨initUF stars, [], []⟩
  have : (kruskalState stars).mst = m' := by simpa [kruskalState] using hm'
  rw [this]
  exact hsub

theorem mem_mst_allPairs {stars : List Star} {e : Edge}
    (he : e ∈ (kruskalState stars).mst) : e ∈ allPairsEdges stars :=
  (sortByDistance_perm _).mem_iff.mp ((mst_sublist_sorted stars).mem he)

theorem mst_pairwise {stars : List Star} (h : (stars.map Star.id).Nodup) :
    (kruskalState stars).mst.Pairwise fun e f => ¬ sameUpairE e f := by
  refine List.Pairwise.sublist (mst_sublist_sorted stars) ?_
  exact ((sortByDistance_perm _).pairwise_iff fun hxy => notSameUpairE_symm hxy).mpr (allPairs_pairwise h)

/-- Membership characterisation for `mapIdx`. -/
theorem mem_mapIdx' {α β : Type} {l : List α} :
    ∀ {f : Nat → α → β} {b : β}, b ∈ l.mapIdx f → ∃ i a, a ∈ l ∧ b = f i a := by
  induction l with
  | nil => intro f b hb; simp [List.mapIdx_nil] at hb
  | cons a l ih =>
    intro f b hb
    rw [List.mapIdx_cons] at hb
    rcases List.mem_cons.mp hb with rfl | hb
    · exact ⟨0, a, List.mem_cons_self a l, rfl⟩
    · obtain ⟨i, a', ha', rfl⟩ := ih hb
      exact ⟨i + 1, a', List.mem_cons_of_mem a ha', rfl⟩

/-- `Pairwise` transfer along `mapIdx` for index-independent relations. -/
theorem pairwise_mapIdx' {α β : Type} {R : α → α → Prop} {S : β → β → Prop} {l : List α} :
    ∀ {f : Nat → α → β}, l.Pairwise R → (∀ i a j b, R a b → S (f i a) (f j b)) →
    (l.mapIdx f).Pairwise S := by
  induction l with
  | nil => intro f _ _; simp [List.mapIdx_nil]
  | cons a l ih =>
    intro f hl hf
    rw [List.mapIdx_cons, List.pairwise_cons]
    obtain ⟨ha, hl'⟩ := List.pairwise_cons.mp hl
    constructor
    · intro b' hb'
      obtain ⟨i, b, hb, rfl⟩ := mem_mapIdx' hb'
      exact hf 0 a (i + 1) b (ha b hb)
    · exact ih hl' fun i x j y hxy => hf (i + 1) x (j + 1) y hxy

/-- C7: under pairwise-distinct star ids, no returned lane is a self-loop
and no unordered pair of star ids occurs as the endpoints of two different
lanes in the returned list. -/
theorem claim_C7 (stars : List Star) (u : Nat → String)
    (h : (stars.map Star.id).Nodup) :
    (∀ l ∈ generateHyperspaceLanes stars u, l.fromStarId ≠ l.toStarId) ∧
    (generateHyperspaceLanes stars u).Pairwise fun l1 l2 =>
      ¬ ((l1.fromStarId = l2.fromStarId ∧ l1.toStarId = l2.toStarId) ∨
         (l1.fromStarId = l2.toStarId ∧ l1.toStarId = l2.fromStarId)) := by
  obtain ⟨extras, h1, _, h3, h4, _⟩ := lanesEdges_decomp stars
  have h1' : generateHyperspaceLanes stars u =
      (kruskalMST stars ++ extras).mapIdx fun i e =>
        (⟨u i, e.fromStarId, e.toStarId, e.distance⟩ : HyperspaceLane) := by
    unfold generateHyperspaceLanes
    rw [h1]
  have hext_mem : ∀ e ∈ extras, e ∈ allPairsEdges stars := fun e he =>
    (mem_shortEdges ((sortByDistance_perm _).mem_iff.mp (h4.mem he))).1
  have hedges : ∀ e ∈ kruskalMST stars ++ extras, e ∈ allPairsEdges stars := by
    intro e he
    rcases List.mem_append.mp he with he | he
    · exact mem_mst_allPairs he
    · exact hext_mem e he
  have hpw : (kruskalMST stars ++ extras).Pairwise fun e f => ¬ sameUpairE e f := by
    rw [List.pairwise_append]
    refine ⟨mst_pairwise h, ?_, ?_⟩
    · refine List.Pairwise.sublist h4 ?_
      refine ((sortByDistance_perm _).pairwise_iff fun hxy => notSameUpairE_symm hxy).mpr ?_
      exact List.Pairwise.sublist (List.filter_sublist _) (allPairs_pairwise h)
    · intro m hm e he
      by_cases hme : m = e
      · subst hme
        exact absurd hm ((h3 m he).2)
      · exact List.Pairwise.forall notSameUpairE_symm
          (allPairs_pairwise h) (mem_mst_allPairs hm) (hext_mem e he) hme
  constructor
  · intro l hl
    rw [h1'] at hl
    obtain ⟨i, e, he, rfl⟩ := mem_mapIdx' hl
    exact allPairs_ne h e (hedges e he)
  · rw [h1']
    exact pairwise_mapIdx' hpw fun i a j b hab => hab

/-! ## Union-find theory for C1 (connectivity)

Semantics of the path-compressing, union-by-rank union-find of the source:
`reaches p x r` says the parent chain from `x` ends at the root `r`; the
invariant `PInv` (ranks strictly increase along non-root parent links, the
parent map stays inside the id set and is the identity outside it) holds
for every state produced by the algorithm and guarantees that fuel equal
to the number of stars suffices for `findAux`. -/

def isRoot (p : String → String) (x : String) : Prop := p x = x

def reaches (p : String → String) (x r : String) : Prop :=
  ∃ k : Nat, p^[k] x = r ∧ isRoot p r

def sameRoot (p : String → String) (a b : String) : Prop :=
  ∃ r, reaches p a r ∧ reaches p b r

/-- The union-find invariant over the finite id set. -/
structure PInv (ids : Finset String) (p : String → String) (rk : String → Nat) : Prop where
  closure : ∀ x ∈ ids, p x ∈ ids
  ranklt : ∀ x ∈ ids, p x ≠ x → rk x < rk (p x)
  outside : ∀ x, x ∉ ids → p x = x

theorem reaches_refl {p : String → String} {x : String} (h : isRoot p x) :
    reaches p x x := ⟨0, rfl, h⟩

theorem reaches_isRoot {p : String → String} {x r : String} (h : reaches p x r) :
    isRoot p r := h.choose_spec.2

theorem reaches_cons {p : String → String} {x r : String} (h : reaches p (p x) r) :
    reaches p x r := by
  obtain ⟨k, hk, hr⟩ := h
  exact ⟨k + 1, by rw [Function.iterate_succ_apply]; exact hk, hr⟩

theorem reaches_of_isRoot_start {p : String → String} {r s : String}
    (h : reaches p r s) (hr : isRoot p r) : s = r := by
  obtain ⟨k, hk, _⟩ := h
  rw [Function.iterate_fixed hr k] at hk
  exact hk.symm

theorem reaches_unique {p : String → String} {x r1 r2 : String}
    (h1 : reaches p x r1) (h2 : reaches p x r2) : r1 = r2 := by
  obtain ⟨k1, hk1, hr1⟩ := h1
  obtain ⟨k2, hk2, hr2⟩ := h2
  rcases le_total k1 k2 with h | h
  · have : p^[k2] x = r1 := by
      rw [show k2 = (k2 - k1) + k1 by omega, Function.iterate_add_apply, hk1,
        Function.iterate_fixed hr1]
    rw [this] at hk2
    exact hk2
  · have : p^[k1] x = r2 := by
      rw [show k1 = (k1 - k2) + k2 by omega, Function.iterate_add_apply, hk2,
        Function.iterate_fixed hr2]
    rw [this] at hk1
    exact hk1.symm

theorem sameRoot_refl {p : String → String} {x r : String} (h : reaches p x r) :
    sameRoot p x x := ⟨r, h, h⟩

theorem sameRoot_symm {p : String → String} {a b : String} (h : sameRoot p a b) :
    sameRoot p b a := by
  obtain ⟨r, h1, h2⟩ := h
  exact ⟨r, h2, h1⟩

theorem sameRoot_trans {p : String → String} {a b c : String}
    (h1 : sameRoot p a b) (h2 : sameRoot p b c) : sameRoot p a c := by
  obtain ⟨r, ha, hb⟩ := h1
  obtain ⟨r', hb', hc⟩ := h2
  rw [reaches_unique hb' hb] at hc
  exact ⟨r, ha, hc⟩

theorem iterate_mem {ids : Finset String} {p : String → String} {rk : String → Nat}
    (hinv : PInv ids p rk) {x : String} (hx : x ∈ ids) (k : Nat) : p^[k] x ∈ ids := by
  induction k with
  | zero => exact hx
  | succ k ih => rw [Function.iterate_succ_apply']; exact hinv.closure _ ih

theorem rank_le_iterate {ids : Finset String} {p : String → String} {rk : String → Nat}
    (hinv : PInv ids p rk) {x : String} (hx : x ∈ ids) (k : Nat) :
    rk x ≤ rk (p^[k] x) := by
  induction k with
  | zero => exact le_refl _
  | succ k ih =>
    rw [Function.iterate_succ_apply']
    by_cases hr : p (p^[k] x) = p^[k] x
    · rw [hr]; exact ih
    · exact ih.trans (hinv.ranklt _ (iterate_mem hinv hx k) hr).le

theorem rank_strict_chain {ids : Finset String} {p : String → String} {rk : String → Nat}
    (hinv : PInv ids p rk) {x : String} (hx : x ∈ ids) {j : Nat}
    (hnr : ∀ m, m < j → ¬ isRoot p (p^[m] x)) :
    ∀ i, i < j → rk (p^[i] x) < rk (p^[j] x) := by
  induction j with
  | zero => intro i hi; omega
  | succ j ih =>
    intro i hi
    have hstep : rk (p^[j] x) < rk (p^[j + 1] x) := by
      rw [Function.iterate_succ_apply']
      exact hinv.ranklt _ (iterate_mem hinv hx j) (hnr j (by omega))
    rcases Nat.lt_or_ge i j with h | h
    · exact (ih (fun m hm => hnr m (by omega)) i h).trans hstep
    · have : i = j := by omega
      rw [this]; exact hstep

/-- Under the invariant, the parent chain from any member reaches a root
within fewer than `ids.card` steps. -/
theorem root_within_card {ids : Finset String} {p : String → String} {rk : String → Nat}
    (hinv : PInv ids p rk) {x : String} (hx : x ∈ ids) :
    ∃ k < ids.card, isRoot p (p^[k] x) := by
  by_contra hcon
  push_neg at hcon
  obtain ⟨i, hi, j, hj, hij, hfij⟩ :=
    Finset.exists_ne_map_eq_of_card_lt_of_maps_to
      (s := Finset.range (ids.card + 1)) (t := ids)
      (by simp) (fun i _ => iterate_mem hinv hx i)
  simp only [Finset.mem_range] at hi hj
  have key : ∀ a b : Nat, a < b → b ≤ ids.card → p^[a] x ≠ p^[b] x := by
    intro a b hab hb
    have := rank_strict_chain hinv hx
      (j := b) (fun m hm => hcon m (by omega)) a hab
    intro he
    rw [he] at this
    omega
  rcases Nat.lt_or_ge i j with h | h
  · exact key i j h (by omega) hfij
  · have : j < i := by omega
    exact key j i this (by omega) hfij.symm

/-- Every chain terminates within any fuel bound of at least `ids.card`,
for members via the rank argument and for non-members immediately. -/
theorem chain_bound {ids : Finset String} {p : String → String} {rk : String → Nat}
    (hinv : PInv ids p rk) {n : Nat} (hfuel : ids.card ≤ n) (x : String) :
    ∃ k ≤ n, isRoot p (p^[k] x) := by
  by_cases hx : x ∈ ids
  · obtain ⟨k, hk, hr⟩ := root_within_card hinv hx
    exact ⟨k, by omega, hr⟩
  · exact ⟨0, Nat.zero_le _, hinv.outside x hx⟩

/-- `p'` arises from `p` by path compression: every pointer is unchanged
or redirected to the root of its own chain (and was not a root). -/
def compressedFrom (p p' : String → String) : Prop :=
  ∀ y, p' y = p y ∨ (reaches p y (p' y) ∧ p y ≠ y)

theorem compressedFrom_refl (p : String → String) : compressedFrom p p :=
  fun _ => Or.inl rfl

/-- `findAux` returns the chain's root and performs a path compression. -/
theorem findAux_spec : ∀ (fuel : Nat) (p : String → String) (x : String),
    (∃ k ≤ fuel, isRoot p (p^[k] x)) →
    reaches p x (findAux fuel p x).2 ∧ compressedFrom p (findAux fuel p x).1 := by
  intro fuel
  induction fuel with
  | zero =>
    intro p x hx
    obtain ⟨k, hk, hr⟩ := hx
    have hk0 : k = 0 := by omega
    subst hk0
    exact ⟨reaches_refl hr, compressedFrom_refl p⟩
  | succ fuel ih =>
    intro p x hx
    by_cases hroot : p x = x
    · rw [show findAux (fuel + 1) p x = (p, x) by simp [findAux, hroot]]
      exact ⟨reaches_refl hroot, compressedFrom_refl p⟩
    · have hx' : ∃ k ≤ fuel, isRoot p (p^[k] (p x)) := by
        obtain ⟨k, hk, hr⟩ := hx
        match k, hk with
        | 0, _ => exact absurd hr hroot
        | k + 1, hk =>
          rw [Function.iterate_succ_apply] at hr
          exact ⟨k, by omega, hr⟩
      obtain ⟨hreach, hcomp⟩ := ih p (p x) hx'
      have heq : findAux (fuel + 1) p x =
          (Function.update (findAux fuel p (p x)).1 x (findAux fuel p (p x)).2,
            (findAux fuel p (p x)).2) := by
        simp [findAux, hroot]
      rw [heq]
      dsimp only
      refine ⟨reaches_cons hreach, ?_⟩
      intro y
      by_cases hy : y = x
      · subst hy
        rw [Function.update_same]
        exact Or.inr ⟨reaches_cons hreach, hroot⟩
      · rw [Function.update_noteq hy]
        exact hcomp y

theorem isRoot_compress {p p' : String → String} (hcomp : compressedFrom p p')
    {s : String} (h : isRoot p s) : isRoot p' s := by
  rcases hcomp s with hc | ⟨_, hne⟩
  · rw [isRoot, hc]; exact h
  · exact absurd h hne

theorem reaches_compress_fwd {p p' : String → String} (hcomp : compressedFrom p p') :
    ∀ {y s : String}, reaches p y s → reaches p' y s := by
  have main : ∀ (k : Nat) (y s : String), p^[k] y = s → isRoot p s → reaches p' y s := by
    intro k
    induction k with
    | zero =>
      intro y s hk hr
      subst hk
      exact reaches_refl (isRoot_compress hcomp hr)
    | succ k ih =>
      intro y s hk hr
      rw [Function.iterate_succ_apply] at hk
      have hrec : reaches p' (p y) s := ih (p y) s hk hr
      rcases hcomp y with hc | ⟨hre, _⟩
      · obtain ⟨m, hm, hr'⟩ := hrec
        exact ⟨m + 1, by rw [Function.iterate_succ_apply, hc]; exact hm, hr'⟩
      · have hys : reaches p y s := ⟨k + 1, by rw [Function.iterate_succ_apply]; exact hk, hr⟩
        have : s = p' y := reaches_unique hys hre
        subst this
        exact ⟨1, by simp, isRoot_compress hcomp (reaches_isRoot hre)⟩
  rintro y s ⟨k, hk, hr⟩
  exact main k y s hk hr

theorem reaches_compress_bwd {p p' : String → String} (hcomp : compressedFrom p p') :
    ∀ {y s : String}, reaches p' y s → reaches p y s := by
  have hroot : ∀ s, isRoot p' s → isRoot p s := by
    intro s hs
    rcases hcomp s with hc | ⟨hre, hne⟩
    · rw [isRoot, ← hc]; exact hs
    · rw [isRoot] at hs
      rw [hs] at hre
      exact absurd (reaches_isRoot hre) hne
  have main : ∀ (k : Nat) (y s : String), p'^[k] y = s → isRoot p' s → reaches p y s := by
    intro k
    induction k with
    | zero =>
      intro y s hk hr
      subst hk
      exact reaches_refl (hroot y hr)
    | succ k ih =>
      intro y s hk hr
      rw [Function.iterate_succ_apply] at hk
      have hrec : reaches p (p' y) s := ih (p' y) s hk hr
      rcases hcomp y with hc | ⟨hre, _⟩
      · rw [hc] at hrec
        exact reaches_cons hrec
      · have : s = p' y := reaches_of_isRoot_start hrec (reaches_isRoot hre)
        subst this
        exact hre
  rintro y s ⟨k, hk, hr⟩
  exact main k y s hk hr

theorem sameRoot_compress_iff {p p' : String → String} (hcomp : compressedFrom p p')
    {a b : String} : sameRoot p' a b ↔ sameRoot p a b := by
  constructor
  · rintro ⟨r, h1, h2⟩
    exact ⟨r, reaches_compress_bwd hcomp h1, reaches_compress_bwd hcomp h2⟩
  · rintro ⟨r, h1, h2⟩
    exact ⟨r, reaches_compress_fwd hcomp h1, reaches_compress_fwd hcomp h2⟩

theorem PInv_compress {ids : Finset String} {p p' : String → String} {rk : String → Nat}
    (hinv : PInv ids p rk) (hcomp : compressedFrom p p') : PInv ids p' rk := by
  constructor
  · intro x hx
    rcases hcomp x with hc | ⟨⟨k, hk, _⟩, _⟩
    · rw [hc]; exact hinv.closure x hx
    · rw [← hk]; exact iterate_mem hinv hx k
  · intro x hx hne
    rcases hcomp x with hc | ⟨⟨k, hk, _⟩, hpx⟩
    · rw [hc] at hne ⊢
      exact hinv.ranklt x hx hne
    · match k, hk with
      | 0, hk => rw [← hk] at hne; simp at hne
      | k + 1, hk =>
        have h1 : rk x < rk (p x) := hinv.ranklt x hx hpx
        have h2 : rk (p x) ≤ rk (p^[k] (p x)) :=
          rank_le_iterate hinv (hinv.closure x hx) k
        rw [Function.iterate_succ_apply] at hk
        rw [← hk]
        omega
  · intro x hx
    rcases hcomp x with hc | ⟨_, hpx⟩
    · rw [hc]; exact hinv.outside x hx
    · exact absurd (hinv.outside x hx) hpx

/-! ### Linking two distinct roots (the `union` pointer write) -/

theorem isRoot_link {p : String → String} {rx ry : String}
    (hrx : isRoot p rx) (hne : rx ≠ ry) :
    isRoot (Function.update p ry rx) rx := by
  rw [isRoot, Function.update_noteq hne]
  exact hrx

theorem reaches_link_fwd {p : String → String} {rx ry : String}
    (hrx : isRoot p rx) (hry : isRoot p ry) (hne : rx ≠ ry) :
    ∀ {y s : String}, reaches (Function.update p ry rx) y s →
      (reaches p y s ∧ s ≠ ry) ∨ (reaches p y ry ∧ s = rx) := by
  set p' := Function.update p ry rx with hp'
  have hrx' : isRoot p' rx := isRoot_link hrx hne
  have main : ∀ (k : Nat) (y s : String), p'^[k] y = s → isRoot p' s →
      (reaches p y s ∧ s ≠ ry) ∨ (reaches p y ry ∧ s = rx) := by
    intro k
    induction k with
    | zero =>
      intro y s hk hr
      have hys : y = s := hk
      subst hys
      by_cases hy : y = ry
      · rw [hy] at hr
        rw [isRoot, hp', Function.update_same] at hr
        exact absurd hr hne
      · left
        refine ⟨reaches_refl ?_, hy⟩
        have h2 : p' y = y := hr
        rw [hp', Function.update_noteq hy] at h2
        exact h2
    | succ k ih =>
      intro y s hk hr
      rw [Function.iterate_succ_apply] at hk
      by_cases hy : y = ry
      · have hpy : p' y = rx := by rw [hy, hp', Function.update_same]
        rw [hpy, Function.iterate_fixed hrx' k] at hk
        subst hk
        refine Or.inr ⟨?_, rfl⟩
        rw [hy]
        exact reaches_refl hry
      · have hk' : p'^[k] (p y) = s := by
          rw [← hk]
          congr 1
          rw [hp', Function.update_noteq hy]
        rcases ih (p y) s hk' hr with ⟨hre, hs⟩ | ⟨hre, hs⟩
        · exact Or.inl ⟨reaches_cons hre, hs⟩
        · exact Or.inr ⟨reaches_cons hre, hs⟩
  rintro y s ⟨k, hk, hr⟩
  exact main k y s hk hr

theorem reaches_link_keep {p : String → String} {rx ry : String}
    (hrx : isRoot p rx) (hry : isRoot p ry) (hne : rx ≠ ry) :
    ∀ {y s : String}, reaches p y s → s ≠ ry →
      reaches (Function.update p ry rx) y s := by
  set p' := Function.update p ry rx with hp'
  have main : ∀ (k : Nat) (y s : String), p^[k] y = s → isRoot p s → s ≠ ry →
      reaches p' y s := by
    intro k
    induction k with
    | zero =>
      intro y s hk hr hs
      have hys : y = s := hk
      subst hys
      refine reaches_refl ?_
      show p' y = y
      rw [hp', Function.update_noteq hs]
      exact hr
    | succ k ih =>
      intro y s hk hr hs
      rw [Function.iterate_succ_apply] at hk
      by_cases hy : y = ry
      · exfalso
        rw [hy, show p ry = ry from hry, Function.iterate_fixed hry k] at hk
        exact hs hk.symm
      · have hrec := ih (p y) s hk hr hs
        obtain ⟨m, hm, hr'⟩ := hrec
        refine ⟨m + 1, ?_, hr'⟩
        rw [Function.iterate_succ_apply]
        rw [show p' y = p y by rw [hp', Function.update_noteq hy]]
        exact hm
  rintro y s ⟨k, hk, hr⟩ hs
  exact main k y s hk hr hs

theorem reaches_link_move {p : String → String} {rx ry : String}
    (hrx : isRoot p rx) (hry : isRoot p ry) (hne : rx ≠ ry) :
    ∀ {y : String}, reaches p y ry → reaches (Function.update p ry rx) y rx := by
  set p' := Function.update p ry rx with hp'
  have hrx' : isRoot p' rx := isRoot_link hrx hne
  have hstep : reaches p' ry rx := by
    refine ⟨1, ?_, hrx'⟩
    simp [hp']
  have main : ∀ (k : Nat) (y : String), p^[k] y = ry → reaches p' y rx := by
    intro k
    induction k with
    | zero =>
      intro y hk
      have hys : y = ry := hk
      rw [hys]
      exact hstep
    | succ k ih =>
      intro y hk
      by_cases hy : y = ry
      · rw [hy]
        exact hstep
      · rw [Function.iterate_succ_apply] at hk
        have hrec := ih (p y) hk
        obtain ⟨m, hm, hr'⟩ := hrec
        refine ⟨m + 1, ?_, hr'⟩
        rw [Function.iterate_succ_apply]
        rw [show p' y = p y by rw [hp', Function.update_noteq hy]]
        exact hm
  rintro y ⟨k, hk, _⟩
  exact main k y hk

theorem PInv_link_lt {ids : Finset String} {p : String → String} {rk : String → Nat}
    (hinv : PInv ids p rk) {a b : String} (ha : a ∈ ids) (hb : b ∈ ids)
    (hab : a ≠ b) (hrk : rk a < rk b) :
    PInv ids (Function.update p a b) rk := by
  constructor
  · intro y hyid
    by_cases hy : y = a
    · rw [hy, Function.update_same]; exact hb
    · rw [Function.update_noteq hy]; exact hinv.closure y hyid
  · intro y hyid hne
    by_cases hy : y = a
    · rw [hy, Function.update_same]
      exact hrk
    · rw [Function.update_noteq hy] at hne ⊢
      exact hinv.ranklt y hyid hne
  · intro y hyid
    have hy : y ≠ a := fun h => hyid (h ▸ ha)
    rw [Function.update_noteq hy]
    exact hinv.outside y hyid

theorem PInv_link_eq {ids : Finset String} {p : String → String} {rk : String → Nat}
    (hinv : PInv ids p rk) {a b : String} (ha : a ∈ ids) (hb : b ∈ ids)
    (hab : a ≠ b) (hra : isRoot p a) (hrk : rk a = rk b) :
    PInv ids (Function.update p b a) (Function.update rk a (rk a + 1)) := by
  constructor
  · intro y hyid
    by_cases hy : y = b
    · rw [hy, Function.update_same]; exact ha
    · rw [Function.update_noteq hy]; exact hinv.closure y hyid
  · intro y hyid hne
    by_cases hy : y = b
    · rw [hy, Function.update_same]
      rw [Function.update_noteq (fun h => hab h.symm), Function.update_same]
      omega
    · rw [Function.update_noteq hy] at hne ⊢
      have hya : y ≠ a := by
        intro h
        rw [h] at hne
        exact hne hra
      rw [Function.update_noteq hya]
      have h1 : rk y < rk (p y) := hinv.ranklt y hyid hne
      by_cases hpy : p y = a
      · rw [hpy, Function.update_same]
        rw [hpy] at h1
        omega
      · rw [Function.update_noteq hpy]
        exact h1
  · intro y hyid
    have hy : y ≠ b := fun h => hyid (h ▸ hb)
    rw [Function.update_noteq hy]
    exact hinv.outside y hyid

/-- All the `sameRoot` consequences of linking the root `l` under the
root `w`. -/
theorem link_sameRoot_spec {p2 : String → String} {l w : String}
    (hl : isRoot p2 l) (hw : isRoot p2 w) (hne : w ≠ l) :
    (∀ a b, sameRoot p2 a b → sameRoot (Function.update p2 l w) a b) ∧
    (∀ a b, reaches p2 a l → reaches p2 b w → sameRoot (Function.update p2 l w) a b) ∧
    (∀ a b, sameRoot (Function.update p2 l w) a b →
      sameRoot p2 a b ∨ (reaches p2 a w ∧ reaches p2 b l) ∨
        (reaches p2 a l ∧ reaches p2 b w)) := by
  refine ⟨?_, ?_, ?_⟩
  · rintro a b ⟨r, hra, hrb⟩
    by_cases hr : r = l
    · subst hr
      exact ⟨w, reaches_link_move hw hl hne hra, reaches_link_move hw hl hne hrb⟩
    · exact ⟨r, reaches_link_keep hw hl hne hra hr,
        reaches_link_keep hw hl hne hrb hr⟩
  · intro a b hal hbw
    exact ⟨w, reaches_link_move hw hl hne hal,
      reaches_link_keep hw hl hne hbw (fun h => hne (h ▸ rfl))⟩
  · rintro a b ⟨s, hsa, hsb⟩
    rcases reaches_link_fwd hw hl hne hsa with ⟨ha1, _⟩ | ⟨ha1, ha2⟩ <;>
      rcases reaches_link_fwd hw hl hne hsb with ⟨hb1, _⟩ | ⟨hb1, hb2⟩
    · exact Or.inl ⟨s, ha1, hb1⟩
    · subst hb2
      exact Or.inr (Or.inl ⟨ha1, hb1⟩)
    · subst ha2
      exact Or.inr (Or.inr ⟨ha1, hb1⟩)
    · exact Or.inl ⟨l, ha1, hb1⟩

/-- Full specification of `UF.union`: the invariant is preserved, the
partition only coarsens, the two arguments become equivalent, and every
new equivalence comes from merging the classes of `x` and `y`. -/
theorem union_spec {ids : Finset String} {uf : UF} {n : Nat}
    (hinv : PInv ids uf.parent uf.rank) (hfuel : ids.card ≤ n)
    {x y : String} (hx : x ∈ ids) (hy : y ∈ ids) :
    PInv ids (uf.union n x y).parent (uf.union n x y).rank ∧
    (∀ a b, sameRoot uf.parent a b → sameRoot (uf.union n x y).parent a b) ∧
    sameRoot (uf.union n x y).parent x y ∧
    (∀ a b, sameRoot (uf.union n x y).parent a b →
      sameRoot uf.parent a b ∨
      (sameRoot uf.parent a x ∧ sameRoot uf.parent b y) ∨
      (sameRoot uf.parent a y ∧ sameRoot uf.parent b x)) := by
  obtain ⟨hrx, hcomp1⟩ := findAux_spec n uf.parent x (chain_bound hinv hfuel x)
  have hinv1 := PInv_compress hinv hcomp1
  obtain ⟨hry, hcomp2⟩ :=
    findAux_spec n (findAux n uf.parent x).1 y (chain_bound hinv1 hfuel y)
  have hinv2 := PInv_compress hinv1 hcomp2
  have hx2 : reaches (findAux n (findAux n uf.parent x).1 y).1 x (findAux n uf.parent x).2 :=
    reaches_compress_fwd hcomp2 (reaches_compress_fwd hcomp1 hrx)
  have hy2 : reaches (findAux n (findAux n uf.parent x).1 y).1 y
      (findAux n (findAux n uf.parent x).1 y).2 :=
    reaches_compress_fwd hcomp2 hry
  have hrxm : (findAux n uf.parent x).2 ∈ ids := by
    obtain ⟨k, hk, _⟩ := hrx
    rw [← hk]
    exact iterate_mem hinv hx k
  have hrym : (findAux n (findAux n uf.parent x).1 y).2 ∈ ids := by
    obtain ⟨k, hk, _⟩ := hry
    rw [← hk]
    exact iterate_mem hinv1 hy k
  set p2 := (findAux n (findAux n uf.parent x).1 y).1 with hp2def
  set rx := (findAux n uf.parent x).2 with hrxdef
  set ry := (findAux n (findAux n uf.parent x).1 y).2 with hrydef
  have hrootx : isRoot p2 rx := reaches_isRoot hx2
  have hrooty : isRoot p2 ry := reaches_isRoot hy2
  have hE : ∀ a b, sameRoot p2 a b ↔ sameRoot uf.parent a b := fun a b =>
    (sameRoot_compress_iff hcomp2).trans (sameRoot_compress_iff hcomp1)
  have hu : uf.union n x y =
      (if rx ≠ ry then
        if uf.rank rx < uf.rank ry then ⟨Function.update p2 rx ry, uf.rank⟩
        else if uf.rank ry < uf.rank rx then ⟨Function.update p2 ry rx, uf.rank⟩
        else ⟨Function.update p2 ry rx, Function.update uf.rank rx (uf.rank rx + 1)⟩
      else ⟨p2, uf.rank⟩) := rfl
  by_cases hne : rx ≠ ry
  · by_cases hr1 : uf.rank rx < uf.rank ry
    · -- link rx under ry
      have hu' : uf.union n x y = ⟨Function.update p2 rx ry, uf.rank⟩ := by
        rw [hu, if_pos hne, if_pos hr1]
      obtain ⟨L1, L2, L3⟩ := link_sameRoot_spec hrootx hrooty (Ne.symm hne)
      rw [hu']
      refine ⟨PInv_link_lt hinv2 hrxm hrym hne hr1, ?_, ?_, ?_⟩
      · intro a b hab
        exact L1 a b ((hE a b).mpr hab)
      · exact L2 x y hx2 hy2
      · intro a b hab
        rcases L3 a b hab with h | ⟨ha, hb⟩ | ⟨ha, hb⟩
        · exact Or.inl ((hE a b).mp h)
        · exact Or.inr (Or.inr ⟨(hE a y).mp ⟨ry, ha, hy2⟩, (hE b x).mp ⟨rx, hb, hx2⟩⟩)
        · exact Or.inr (Or.inl ⟨(hE a x).mp ⟨rx, ha, hx2⟩, (hE b y).mp ⟨ry, hb, hy2⟩⟩)
    · by_cases hr2 : uf.rank ry < uf.rank rx
      · -- link ry under rx
        have hu' : uf.union n x y = ⟨Function.update p2 ry rx, uf.rank⟩ := by
          rw [hu, if_pos hne, if_neg hr1, if_pos hr2]
        obtain ⟨L1, L2, L3⟩ := link_sameRoot_spec hrooty hrootx hne
        rw [hu']
        refine ⟨PInv_link_lt hinv2 hrym hrxm (Ne.symm hne) hr2, ?_, ?_, ?_⟩
        · intro a b hab
          exact L1 a b ((hE a b).mpr hab)
        · exact sameRoot_symm (L2 y x hy2 hx2)
        · intro a b hab
          rcases L3 a b hab with h | ⟨ha, hb⟩ | ⟨ha, hb⟩
          · exact Or.inl ((hE a b).mp h)
          · exact Or.inr (Or.inl ⟨(hE a x).mp ⟨rx, ha, hx2⟩, (hE b y).mp ⟨ry, hb, hy2⟩⟩)
          · exact Or.inr (Or.inr ⟨(hE a y).mp ⟨ry, ha, hy2⟩, (hE b x).mp ⟨rx, hb, hx2⟩⟩)
      · -- equal ranks: link ry under rx, bump rank of rx
        have hu' : uf.union n x y =
            ⟨Function.update p2 ry rx, Function.update uf.rank rx (uf.rank rx + 1)⟩ := by
          rw [hu, if_pos hne, if_neg hr1, if_neg hr2]
        obtain ⟨L1, L2, L3⟩ := link_sameRoot_spec hrooty hrootx hne
        rw [hu']
        have hrkeq : uf.rank rx = uf.rank ry := by omega
        refine ⟨PInv_link_eq hinv2 hrxm hrym hne hrootx hrkeq, ?_, ?_, ?_⟩
        · intro a b hab
          exact L1 a b ((hE a b).mpr hab)
        · exact sameRoot_symm (L2 y x hy2 hx2)
        · intro a b hab
          rcases L3 a b hab with h | ⟨ha, hb⟩ | ⟨ha, hb⟩
          · exact Or.inl ((hE a b).mp h)
          · exact Or.inr (Or.inl ⟨(hE a x).mp ⟨rx, ha, hx2⟩, (hE b y).mp ⟨ry, hb, hy2⟩⟩)
          · exact Or.inr (Or.inr ⟨(hE a y).mp ⟨ry, ha, hy2⟩, (hE b x).mp ⟨rx, hb, hx2⟩⟩)
  · -- roots already equal: only the path compressions happened
    have hu' : uf.union n x y = ⟨p2, uf.rank⟩ := by rw [hu, if_neg hne]
    push_neg at hne
    rw [hu']
    refine ⟨hinv2, ?_, ?_, ?_⟩
    · intro a b hab
      exact (hE a b).mpr hab
    · exact ⟨rx, hx2, hne ▸ hy2⟩
    · intro a b hab
      exact Or.inl ((hE a b).mp hab)

/-! ### Kruskal fold invariant and connectivity -/

/-- One undirected step along an edge of `edges`. -/
def edgeStep (edges : List Edge) (a b : String) : Prop :=
  ∃ e ∈ edges, (e.fromStarId = a ∧ e.toStarId = b) ∨ (e.fromStarId = b ∧ e.toStarId = a)

def edgeConn (edges : List Edge) : String → String → Prop :=
  Relation.ReflTransGen (edgeStep edges)

theorem edgeStep_symm {edges : List Edge} : Symmetric (edgeStep edges) := by
  rintro a b ⟨e, he, h | h⟩
  · exact ⟨e, he, Or.inr h⟩
  · exact ⟨e, he, Or.inl h⟩

theorem edgeConn_symm {edges : List Edge} : Symmetric (edgeConn edges) :=
  Relation.ReflTransGen.symmetric edgeStep_symm

theorem edgeConn_mono {edges edges' : List Edge}
    (h : ∀ e ∈ edges, e ∈ edges') {a b : String} (hc : edgeConn edges a b) :
    edgeConn edges' a b := by
  refine Relation.ReflTransGen.mono ?_ hc
  rintro u v ⟨e, he, hor⟩
  exact ⟨e, h e he, hor⟩

/-- The loop invariant of the Kruskal pass: union-find invariant plus
"equivalent ids are connected in the accumulated MST edge list". -/
def KInv (ids : Finset String) (st : KState) : Prop :=
  PInv ids st.uf.parent st.uf.rank ∧
    ∀ a b, sameRoot st.uf.parent a b → edgeConn st.mst a b

theorem kruskalStep_spec {ids : Finset String} {n : Nat} (hfuel : ids.card ≤ n)
    {st : KState} (hK : KInv ids st) {e : Edge}
    (hef : e.fromStarId ∈ ids) (het : e.toStarId ∈ ids) :
    KInv ids (kruskalStep n st e) ∧
    (∀ a b, sameRoot st.uf.parent a b → sameRoot (kruskalStep n st e).uf.parent a b) ∧
    sameRoot (kruskalStep n st e).uf.parent e.fromStarId e.toStarId := by
  obtain ⟨hinv, hconn⟩ := hK
  obtain ⟨hrx, hcomp1⟩ := findAux_spec n st.uf.parent e.fromStarId
    (chain_bound hinv hfuel e.fromStarId)
  have hinv1 := PInv_compress hinv hcomp1
  obtain ⟨hry, hcomp2⟩ := findAux_spec n (findAux n st.uf.parent e.fromStarId).1 e.toStarId
    (chain_bound hinv1 hfuel e.toStarId)
  have hinv2 := PInv_compress hinv1 hcomp2
  have hE : ∀ a b, sameRoot (findAux n (findAux n st.uf.parent e.fromStarId).1 e.toStarId).1 a b
      ↔ sameRoot st.uf.parent a b := fun a b =>
    (sameRoot_compress_iff hcomp2).trans (sameRoot_compress_iff hcomp1)
  have hmono : ∀ f ∈ st.mst, f ∈ st.mst ++ [e] := fun f hf => List.mem_append_left _ hf
  by_cases hc : (st.uf.find n e.fromStarId).2 ≠
      ((st.uf.find n e.fromStarId).1.find n e.toStarId).2
  · have hstep : kruskalStep n st e =
        ⟨((st.uf.find n e.fromStarId).1.find n e.toStarId).1.union n e.fromStarId e.toStarId,
          st.mst ++ [e], addStr st.used (edgeKey e)⟩ := by
      simp [kruskalStep, hc]
    have huf2inv : PInv ids (((st.uf.find n e.fromStarId).1.find n e.toStarId).1).parent
        (((st.uf.find n e.fromStarId).1.find n e.toStarId).1).rank := hinv2
    obtain ⟨U1, U2, U3, U4⟩ := union_spec huf2inv hfuel hef het
    rw [hstep]
    refine ⟨⟨U1, ?_⟩, ?_, U3⟩
    · intro a b hab
      rcases U4 a b hab with h | ⟨ha, hb⟩ | ⟨ha, hb⟩
      · exact edgeConn_mono hmono (hconn a b ((hE a b).mp h))
      · have h1 : edgeConn (st.mst ++ [e]) a e.fromStarId :=
          edgeConn_mono hmono (hconn _ _ ((hE _ _).mp ha))
        have h2 : edgeConn (st.mst ++ [e]) b e.toStarId :=
          edgeConn_mono hmono (hconn _ _ ((hE _ _).mp hb))
        have hmid : edgeStep (st.mst ++ [e]) e.fromStarId e.toStarId :=
          ⟨e, List.mem_append_right _ (List.mem_singleton_self e), Or.inl ⟨rfl, rfl⟩⟩
        exact (h1.tail hmid).trans (edgeConn_symm h2)
      · have h1 : edgeConn (st.mst ++ [e]) a e.toStarId :=
          edgeConn_mono hmono (hconn _ _ ((hE _ _).mp ha))
        have h2 : edgeConn (st.mst ++ [e]) b e.fromStarId :=
          edgeConn_mono hmono (hconn _ _ ((hE _ _).mp hb))
        have hmid : edgeStep (st.mst ++ [e]) e.toStarId e.fromStarId :=
          ⟨e, List.mem_append_right _ (List.mem_singleton_self e), Or.inr ⟨rfl, rfl⟩⟩
        exact (h1.tail hmid).trans (edgeConn_symm h2)
    · intro a b hab
      exact U2 a b ((hE a b).mpr ((hE a b).mp ((sameRoot_compress_iff hcomp2).mpr
        ((sameRoot_compress_iff hcomp1).mpr hab))))
  · push_neg at hc
    have hstep : kruskalStep n st e =
        ⟨((st.uf.find n e.fromStarId).1.find n e.toStarId).1, st.mst, st.used⟩ := by
      simp [kruskalStep, hc]
    rw [hstep]
    have hx2 : reaches (findAux n (findAux n st.uf.parent e.fromStarId).1 e.toStarId).1
        e.fromStarId (findAux n st.uf.parent e.fromStarId).2 :=
      reaches_compress_fwd hcomp2 (reaches_compress_fwd hcomp1 hrx)
    have hy2 : reaches (findAux n (findAux n st.uf.parent e.fromStarId).1 e.toStarId).1
        e.toStarId (findAux n (findAux n st.uf.parent e.fromStarId).1 e.toStarId).2 :=
      reaches_compress_fwd hcomp2 hry
    have hceq : (findAux n st.uf.parent e.fromStarId).2 =
        (findAux n (findAux n st.uf.parent e.fromStarId).1 e.toStarId).2 := hc
    refine ⟨⟨hinv2, ?_⟩, ?_, ?_⟩
    · intro a b hab
      exact hconn a b ((hE a b).mp hab)
    · intro a b hab
      exact (hE a b).mpr hab
    · exact ⟨_, hx2, hceq ▸ hy2⟩

theorem kruskalFold_spec {ids : Finset String} {n : Nat} (hfuel : ids.card ≤ n) :
    ∀ (l : List Edge) (st : KState), KInv ids st →
    (∀ e ∈ l, e.fromStarId ∈ ids ∧ e.toStarId ∈ ids) →
    KInv ids (l.foldl (kruskalStep n) st) ∧
    (∀ a b, sameRoot st.uf.parent a b →
      sameRoot (l.foldl (kruskalStep n) st).uf.parent a b) ∧
    (∀ e ∈ l, sameRoot (l.foldl (kruskalStep n) st).uf.parent e.fromStarId e.toStarId) := by
  intro l
  induction l with
  | nil =>
    intro st hK _
    exact ⟨hK, fun a b h => h, by simp⟩
  | cons e l ih =>
    intro st hK hmem
    obtain ⟨hK1, hco1, hxy1⟩ := kruskalStep_spec hfuel hK
      (hmem e (List.mem_cons_self e l)).1 (hmem e (List.mem_cons_self e l)).2
    obtain ⟨hK2, hco2, hall⟩ := ih (kruskalStep n st e) hK1
      (fun f hf => hmem f (List.mem_cons_of_mem e hf))
    rw [List.foldl_cons]
    refine ⟨hK2, ?_, ?_⟩
    · intro a b hab
      exact hco2 a b (hco1 a b hab)
    · intro f hf
      rcases List.mem_cons.mp hf with rfl | hf
      · exact hco2 _ _ hxy1
      · exact hall f hf

theorem initUF_eq (stars : List Star) : initUF stars = ⟨fun x => x, fun _ => 0⟩ := by
  have : ∀ (l : List Star) (uf : UF), uf = ⟨fun x => x, fun _ => 0⟩ →
      l.foldl (fun uf s => uf.makeSet s.id) uf = ⟨fun x => x, fun _ => 0⟩ := by
    intro l
    induction l with
    | nil => intro uf h; exact h
    | cons s l ih =>
      intro uf h
      rw [List.foldl_cons]
      refine ih _ ?_
      rw [h]
      unfold UF.makeSet
      congr 1
      · funext z
        by_cases hz : z = s.id <;> simp [hz]
      · funext z
        by_cases hz : z = s.id <;> simp [hz]
  exact this stars _ rfl

theorem sameRoot_id {a b : String} (h : sameRoot (fun x => x) a b) : a = b := by
  obtain ⟨r, ⟨k1, hk1, _⟩, ⟨k2, hk2, _⟩⟩ := h
  have hid : ∀ (m : Nat) (z : String), (fun x : String => x)^[m] z = z := by
    intro m
    induction m with
    | zero => intro z; rfl
    | succ m ihm => intro z; rw [Function.iterate_succ_apply]; exact ihm z
  rw [hid k1 a] at hk1
  rw [hid k2 b] at hk2
  rw [hk1, hk2]

/-- Completeness of the pair enumeration: any two stars with distinct ids
yield an edge between them. -/
theorem allPairs_complete : ∀ {stars : List Star} {a b : Star}, a ∈ stars → b ∈ stars →
    a.id ≠ b.id → ∃ e ∈ allPairsEdges stars,
      (e.fromStarId = a.id ∧ e.toStarId = b.id) ∨
        (e.fromStarId = b.id ∧ e.toStarId = a.id) := by
  intro stars
  induction stars with
  | nil => intro a b ha; simp at ha
  | cons s rest ih =>
    intro a b ha hb hne
    rcases List.mem_cons.mp ha with ha1 | ha1
    · rcases List.mem_cons.mp hb with hb1 | hb1
      · rw [ha1, hb1] at hne
        exact absurd rfl hne
      · refine ⟨⟨s.id, b.id, calculateDistance s.position b.position⟩, ?_, ?_⟩
        · simp only [allPairsEdges]
          exact List.mem_append_left _ (List.mem_map.mpr ⟨b, hb1, rfl⟩)
        · rw [ha1]
          exact Or.inl ⟨rfl, rfl⟩
    · rcases List.mem_cons.mp hb with hb1 | hb1
      · refine ⟨⟨s.id, a.id, calculateDistance s.position a.position⟩, ?_, ?_⟩
        · simp only [allPairsEdges]
          exact List.mem_append_left _ (List.mem_map.mpr ⟨a, ha1, rfl⟩)
        · rw [hb1]
          exact Or.inr ⟨rfl, rfl⟩
      · obtain ⟨e, he, hor⟩ := ih ha1 hb1 hne
        refine ⟨e, ?_, hor⟩
        simp only [allPairsEdges]
        exact List.mem_append_right _ he

theorem mapIdx_mem_of_mem {α β : Type} {l : List α} {e : α} (he : e ∈ l) :
    ∀ f : Nat → α → β, ∃ i, f i e ∈ l.mapIdx f := by
  induction l with
  | nil => simp at he
  | cons a l ih =>
    intro f
    rcases List.mem_cons.mp he with rfl | he'
    · exact ⟨0, by rw [List.mapIdx_cons]; exact List.mem_cons_self _ _⟩
    · obtain ⟨i, hi⟩ := ih he' fun i => f (i + 1)
      exact ⟨i + 1, by rw [List.mapIdx_cons]; exact List.mem_cons_of_mem _ hi⟩

/-- One undirected step along a lane of `lanes`. -/
def laneStep (lanes : List HyperspaceLane) (a b : String) : Prop :=
  ∃ l ∈ lanes, (l.fromStarId = a ∧ l.toStarId = b) ∨ (l.fromStarId = b ∧ l.toStarId = a)

/-- Reachability by traversing lanes as undirected edges. -/
def laneConn (lanes : List HyperspaceLane) : String → String → Prop :=
  Relation.ReflTransGen (laneStep lanes)

/-- C1: for pairwise-distinct star ids, the lane list returned by
`generateHyperspaceLanes` connects every star to every other star. -/
theorem claim_C1 (stars : List Star) (u : Nat → String)
    (h : (stars.map Star.id).Nodup) :
    ∀ a ∈ stars, ∀ b ∈ stars,
      laneConn (generateHyperspaceLanes stars u) a.id b.id := by
  intro a ha b hb
  set ids : Finset String := (stars.map Star.id).toFinset with hids
  have hfuel : ids.card ≤ stars.length := by
    calc ids.card ≤ (stars.map Star.id).length := List.toFinset_card_le _
    _ = stars.length := List.length_map _ _
  have hK0 : KInv ids ⟨initUF stars, [], []⟩ := by
    rw [initUF_eq]
    refine ⟨⟨fun x hx => hx, fun x _ hne => absurd rfl hne, fun x _ => rfl⟩, ?_⟩
    intro a' b' hab
    rw [sameRoot_id hab]
    exact Relation.ReflTransGen.refl
  have hmem : ∀ e ∈ sortByDistance (allPairsEdges stars),
      e.fromStarId ∈ ids ∧ e.toStarId ∈ ids := by
    intro e he
    have he' : e ∈ allPairsEdges stars := (sortByDistance_perm _).mem_iff.mp he
    obtain ⟨h1, h2⟩ := allPairs_endpoints he'
    exact ⟨List.mem_toFinset.mpr h1, List.mem_toFinset.mpr h2⟩
  obtain ⟨hKf, _, hall⟩ := kruskalFold_spec hfuel (sortByDistance (allPairsEdges stars))
    ⟨initUF stars, [], []⟩ hK0 hmem
  -- connectivity of the ids in the MST edge list
  have hconnMST : edgeConn (kruskalState stars).mst a.id b.id := by
    by_cases hab : a.id = b.id
    · rw [hab]
      exact Relation.ReflTransGen.refl
    · obtain ⟨e, he, hor⟩ := allPairs_complete ha hb hab
      have he' : e ∈ sortByDistance (allPairsEdges stars) :=
        (sortByDistance_perm _).mem_iff.mpr he
      have hsr := hall e he'
      have hKState : (kruskalState stars) =
          (sortByDistance (allPairsEdges stars)).foldl (kruskalStep stars.length)
            ⟨initUF stars, [], []⟩ := rfl
      rcases hor with ⟨h1, h2⟩ | ⟨h1, h2⟩
      · rw [← h1, ← h2]
        rw [hKState]
        exact hKf.2 _ _ hsr
      · rw [← h1, ← h2]
        rw [hKState]
        exact edgeConn_symm (hKf.2 _ _ hsr)
  -- transfer to the final lane list
  obtain ⟨extras, hdec, _, _, _, _⟩ := lanesEdges_decomp stars
  refine Relation.ReflTransGen.mono ?_ hconnMST
  rintro w v ⟨e, he, hor⟩
  have he2 : e ∈ lanesEdges stars := by
    rw [hdec]
    exact List.mem_append_left _ he
  obtain ⟨i, hi⟩ := mapIdx_mem_of_mem he2
    fun i e => (⟨u i, e.fromStarId, e.toStarId, e.distance⟩ : HyperspaceLane)
  refine ⟨_, hi, ?_⟩
  rcases hor with ⟨h1, h2⟩ | ⟨h1, h2⟩
  · exact Or.inl ⟨h1, h2⟩
  · exact Or.inr ⟨h1, h2⟩

def starB : Star := ⟨"b", ⟨0, 0⟩, "", .RED_DWARF, 0, ""⟩

/-- C1 witness: connectivity of the generated lanes on a concrete
two-star galaxy with distinct ids. -/
theorem claim_C1_witness :
    laneConn (generateHyperspaceLanes [star0, starB] u6) star0.id starB.id :=
  claim_C1 [star0, starB] u6 (by decide) star0 (List.mem_cons_self _ _) starB
    (List.mem_cons_of_mem _ (List.mem_cons_self _ _))

/-- C7 witness: the lane-list shape properties on a concrete two-star
galaxy with distinct ids. -/
theorem claim_C7_witness :
    (∀ l ∈ generateHyperspaceLanes [star0, starB] u6, l.fromStarId ≠ l.toStarId) ∧
    (generateHyperspaceLanes [star0, starB] u6).Pairwise fun l1 l2 =>
      ¬ ((l1.fromStarId = l2.fromStarId ∧ l1.toStarId = l2.toStarId) ∨
         (l1.fromStarId = l2.toStarId ∧ l1.toStarId = l2.fromStarId)) :=
  claim_C7 [star0, starB] u6 (by decide)

/-! ## Claim C2: starting-system selection -/

theorem minDistToFactions_ne_bot (systems : List StarSystem) (factions : List Faction)
    (sys : StarSystem) : minDistToFactions systems factions sys ≠ ⊥ := by
  have inner : ∀ (l : List String) (m : EReal), m ≠ ⊥ →
      l.foldl (fun m2 controlledId =>
        match systems.find? (fun s2 => s2.star.id == controlledId) with
        | some controlledSystem =>
          min m2 ((calculateDistance sys.star.position controlledSystem.star.position : ℝ) : EReal)
        | none => m2) m ≠ ⊥ := by
    intro l
    induction l with
    | nil => exact fun m hm => hm
    | cons c l ih =>
      intro m hm
      rw [List.foldl_cons]
      refine ih _ ?_
      cases hfind : systems.find? fun s2 => s2.star.id == c with
      | none => simpa [hfind] using hm
      | some cs =>
        simp only [hfind]
        rw [Ne, min_eq_bot]
        push_neg
        exact ⟨hm, EReal.coe_ne_bot _⟩
  have outer : ∀ (lf : List Faction) (m : EReal), m ≠ ⊥ →
      lf.foldl (fun m faction =>
        faction.controlledSystems.foldl (fun m2 controlledId =>
          match systems.find? (fun s2 => s2.star.id == controlledId) with
          | some controlledSystem =>
            min m2 ((calculateDistance sys.star.position controlledSystem.star.position : ℝ) : EReal)
          | none => m2) m) m ≠ ⊥ := by
    intro lf
    induction lf with
    | nil => exact fun m hm => hm
    | cons f lf ih =>
      intro m hm
      rw [List.foldl_cons]
      exact ih _ (inner f.controlledSystems m hm)
  exact outer factions ⊤ (by simp)

/-- The random index draw `Math.floor(Math.random() * length)` stays in
range for a stream value in `[0, 1)` and a nonempty list. -/
theorem getD_rand_mem {α : Type} [Inhabited α] {l : List α} (hl : 0 < l.length)
    {r : ℝ} (h0 : 0 ≤ r) (h1 : r < 1) :
    l.getD (⌊r * (l.length : ℝ)⌋).toNat default ∈ l := by
  have hlt : (⌊r * (l.length : ℝ)⌋).toNat < l.length := by
    have hnn : (0 : ℝ) ≤ r * (l.length : ℝ) := by positivity
    have hx : r * (l.length : ℝ) < (l.length : ℝ) := by
      have : (0 : ℝ) < (l.length : ℝ) := by exact_mod_cast hl
      nlinarith
    have h2 : ⌊r * (l.length : ℝ)⌋ < (l.length : ℤ) := by
      rw [Int.floor_lt]
      exact_mod_cast hx
    omega
  rw [List.getD_eq_getElem l default hlt]
  exact List.getElem_mem hlt

theorem lastResortFold_spec (systems : List StarSystem) (factions : List Faction) :
    ∀ (l : List StarSystem) (acc : StarSystem × EReal),
    (∀ x ∈ l, x ∈ systems) → acc.1 ∈ systems →
    (acc.2 ≠ ⊥ → isExotic acc.1.star.type = false) →
    (l.foldl (lastResortStep systems factions) acc).1 ∈ systems ∧
    ((l.foldl (lastResortStep systems factions) acc).2 ≠ ⊥ →
      isExotic (l.foldl (lastResortStep systems factions) acc).1.star.type = false) ∧
    ((∃ x ∈ l, isExotic x.star.type = false) ∨ acc.2 ≠ ⊥ →
      (l.foldl (lastResortStep systems factions) acc).2 ≠ ⊥) := by
  intro l
  induction l with
  | nil =>
    intro acc _ hmem hne
    refine ⟨hmem, hne, ?_⟩
    rintro (⟨x, hx, _⟩ | h)
    · simp at hx
    · exact h
  | cons sys l ih =>
    intro acc hsub hmem hne
    rw [List.foldl_cons]
    have hstep : (lastResortStep systems factions acc sys).1 ∈ systems ∧
        ((lastResortStep systems factions acc sys).2 ≠ ⊥ →
          isExotic (lastResortStep systems factions acc sys).1.star.type = false) := by
      unfold lastResortStep
      by_cases hex : isExotic sys.star.type
      · simp only [hex, if_true]
        exact ⟨hmem, hne⟩
      · simp only [hex, if_false]
        by_cases hlt : acc.2 < minDistToFactions systems factions sys
        · simp only [hlt, if_true]
          exact ⟨hsub sys (List.mem_cons_self _ _),
            fun _ => Bool.not_eq_true _ ▸ (by simpa using hex)⟩
        · simp only [hlt, if_false]
          exact ⟨hmem, hne⟩
    obtain ⟨ih1, ih2, ih3⟩ := ih (lastResortStep systems factions acc sys)
      (fun x hx => hsub x (List.mem_cons_of_mem _ hx)) hstep.1 hstep.2
    refine ⟨ih1, ih2, ?_⟩
    rintro (⟨x, hx, hxe⟩ | h)
    · rcases List.mem_cons.mp hx with rfl | hx'
      · refine ih3 (Or.inr ?_)
        unfold lastResortStep
        simp only [hxe, Bool.false_eq_true, if_false]
        have hmd := minDistToFactions_ne_bot systems factions x
        by_cases hlt : acc.2 < minDistToFactions systems factions x
        · simp only [hlt, if_true]
          exact hmd
        · simp only [hlt, if_false]
          intro hbot
          rw [hbot] at hlt
          exact hlt (Ne.bot_lt hmd)
      · exact ih3 (Or.inl ⟨x, hx', hxe⟩)
    · refine ih3 (Or.inr ?_)
      unfold lastResortStep
      by_cases hex : isExotic sys.star.type
      · simpa [hex] using h
      · simp only [hex, Bool.false_eq_true, if_false]
        by_cases hlt : acc.2 < minDistToFactions systems factions sys
        · simp only [hlt, if_true]
          exact minDistToFactions_ne_bot systems factions sys
        · simpa [hlt] using h

/-- C2: whenever the input contains at least one system whose star is not
a black hole, neutron star or pulsar, `selectStartingSystem` returns
(exactly) one system, it is an element of the input, and its star is not
of one of the three exotic types. -/
theorem claim_C2 (systems : List StarSystem) (factions : List Faction)
    (s : Nat → ℝ) (st : St)
    (hex : ∃ sys ∈ systems, isExotic sys.star.type = false)
    (hs : ∀ n, 0 ≤ s n ∧ s n < 1) :
    ∃ sys, selectStartingSystem systems factions s st = some sys ∧
      sys ∈ systems ∧ isExotic sys.star.type = false := by
  unfold selectStartingSystem
  set potentialSystems := systems.filter fun sys =>
    !(isExotic sys.star.type) && !(decide (sys.planets.length < 2)) &&
      factionDistanceOk systems factions sys MIN_DISTANCE_FROM_FACTIONS with hpot
  set sortedSystems := potentialSystems.mergeSort fun a b =>
    decide (startingScore b ≤ startingScore a) with hsorted
  by_cases h1 : 0 < sortedSystems.length
  · rw [if_pos h1]
    set topSystems := sortedSystems.take (min 5 sortedSystems.length) with htop
    have htoplen : 0 < topSystems.length := by
      rw [htop, List.length_take]
      omega
    have hmemtop : topSystems.getD
        (⌊(randR s st).1 * (topSystems.length : ℝ)⌋).toNat default ∈ topSystems :=
      getD_rand_mem htoplen (hs st.rnd).1 (hs st.rnd).2
    have hmem2 : topSystems.getD
        (⌊(randR s st).1 * (topSystems.length : ℝ)⌋).toNat default ∈ potentialSystems := by
      have := List.mem_of_mem_take (htop ▸ hmemtop)
      exact (List.mergeSort_perm potentialSystems _).mem_iff.mp (hsorted ▸ this)
    rw [hpot] at hmem2
    have hmf := List.mem_filter.mp hmem2
    refine ⟨_, rfl, hmf.1, ?_⟩
    have hb := hmf.2
    simp only [Bool.and_eq_true, Bool.not_eq_true'] at hb
    exact hb.1.1
  · rw [if_neg h1]
    set backupSystems := systems.filter fun sys =>
      !(isExotic sys.star.type) &&
        factionDistanceOk systems factions sys (MIN_DISTANCE_FROM_FACTIONS * (3/4)) with hback
    by_cases h2 : 0 < backupSystems.length
    · rw [if_pos h2]
      have hmemb : backupSystems.getD
          (⌊(randR s st).1 * (backupSystems.length : ℝ)⌋).toNat default ∈ backupSystems :=
        getD_rand_mem h2 (hs st.rnd).1 (hs st.rnd).2
      rw [hback] at hmemb
      have hmf := List.mem_filter.mp hmemb
      refine ⟨_, rfl, hmf.1, ?_⟩
      have hb := hmf.2
      simp only [Bool.and_eq_true, Bool.not_eq_true'] at hb
      exact hb.1
    · rw [if_neg h2]
      obtain ⟨sys0, hsys0, hsys0ex⟩ := hex
      match hsytems : systems, hsys0 with
      | s0 :: rest, hsys0 =>
        obtain ⟨f1, f2, f3⟩ := lastResortFold_spec (s0 :: rest) factions (s0 :: rest)
          (s0, ⊥) (fun x hx => hx) (List.mem_cons_self _ _) (fun hbot => absurd rfl hbot)
        refine ⟨_, rfl, f1, ?_⟩
        exact f2 (f3 (Or.inl ⟨sys0, hsys0, hsys0ex⟩))

def sys1 : StarSystem := ⟨"s", star0, [], []⟩

/-- C2 witness: the claim applied to a concrete one-system galaxy with a
red-dwarf star, no factions, and the constant-zero random stream. -/
theorem claim_C2_witness :
    ∃ sys, selectStartingSystem [sys1] [] (fun _ => 0) st0 = some sys ∧
      sys ∈ [sys1] ∧ isExotic sys.star.type = false :=
  claim_C2 [sys1] [] (fun _ => 0) st0
    ⟨sys1, List.mem_cons_self _ _, by decide⟩ (fun n => by norm_num)

/-! ## Faction generation: structural lemmas for C3, C4, C5, C10 -/

theorem addStr_length (l : List String) (x : String) :
    (addStr l x).length ≤ l.length + 1 := by
  unfold addStr
  split <;> simp

theorem mem_addStr_iff {l : List String} {x y : String} :
    y ∈ addStr l x ↔ y ∈ l ∨ y = x := by
  unfold addStr
  split
  · constructor
    · exact Or.inl
    · rintro (h | rfl)
      · exact h
      · assumption
  · simp

theorem foldl_pick_mem {γ : Type} (step : Option Star × γ → Star → Option Star × γ)
    (hstep : ∀ acc c, (step acc c).1 = acc.1 ∨ (step acc c).1 = some c) :
    ∀ (l : List Star) (acc : Option Star × γ) (b : Star),
    (l.foldl step acc).1 = some b → acc.1 = some b ∨ b ∈ l := by
  intro l
  induction l with
  | nil => exact fun acc b h => Or.inl h
  | cons c l ih =>
    intro acc b h
    rw [List.foldl_cons] at h
    rcases ih (step acc c) b h with h2 | h2
    · rcases hstep acc c with h3 | h3
      · rw [h3] at h2
        exact Or.inl h2
      · rw [h3] at h2
        exact Or.inr (List.mem_cons.mpr (Or.inl (Option.some.inj h2).symm))
    · exact Or.inr (List.mem_cons_of_mem c h2)

theorem pickBestStar_mem {faction : Faction} {stars unclaimed : List Star} {b : Star}
    (h : pickBestStar faction stars unclaimed = some b) : b ∈ unclaimed := by
  have hstep : ∀ (acc : Option Star × EReal) c,
      (bestStarStep faction stars acc c).1 = acc.1 ∨
        (bestStarStep faction stars acc c).1 = some c := by
    intro acc c
    unfold bestStarStep
    by_cases h1 : (expandStats faction stars c).validStar
    · by_cases h2 : acc.2 < ((expandScore (expandStats faction stars c) : ℝ) : EReal)
      · simp [h1, h2]
      · simp [h1, h2]
    · simp [h1]
  rcases foldl_pick_mem _ hstep unclaimed (none, ⊥) b h with h2 | h2
  · exact absurd h2 (by simp)
  · exact h2

theorem pickFallbackStar_mem {center : ℝ × ℝ} {unclaimed : List Star} {b : Star}
    (h : pickFallbackStar center unclaimed = some b) : b ∈ unclaimed := by
  have hstep : ∀ (acc : Option Star × EReal) c,
      (fallbackStarStep center acc c).1 = acc.1 ∨
        (fallbackStarStep center acc c).1 = some c := by
    intro acc c
    unfold fallbackStarStep
    by_cases h1 : ((Real.sqrt ((c.position.x - center.1) ^ 2 +
        (c.position.y - center.2) ^ 2) : ℝ) : EReal) < acc.2
    · simp [h1]
    · simp [h1]
  rcases foldl_pick_mem _ hstep unclaimed (none, ⊤) b h with h2 | h2
  · exact absurd h2 (by simp)
  · exact h2

/-- The expansion loop only appends to `controlledSystems`, the appended
ids come from the unclaimed pool, and no other field changes. -/
theorem expandLoop_spec (stars : List Star) (t : Nat) (Q : String → Prop) :
    ∀ (fuel : Nat) (faction : Faction) (unclaimed : List Star),
    (∀ x ∈ unclaimed, Q x.id) →
    ∃ added : List String,
      expandLoop stars t fuel faction unclaimed =
        { faction with controlledSystems := faction.controlledSystems ++ added } ∧
      ∀ i ∈ added, Q i := by
  intro fuel
  induction fuel with
  | zero =>
    intro faction unclaimed _
    exact ⟨[], by simp [expandLoop], by simp⟩
  | succ fuel ih =>
    intro faction unclaimed hQ
    by_cases hguard : faction.controlledSystems.length < t ∧ 0 < unclaimed.length
    · cases hpick : pickBestStar faction stars unclaimed with
      | some bestStar =>
        have hQb : Q bestStar.id := hQ bestStar (pickBestStar_mem hpick)
        have hQ' : ∀ x ∈ unclaimed.eraseP (fun t2 => t2.id == bestStar.id), Q x.id :=
          fun x hx => hQ x ((List.eraseP_sublist _).mem hx)
        obtain ⟨added', h1, h2⟩ := ih
          { faction with controlledSystems := addStr faction.controlledSystems bestStar.id }
          (unclaimed.eraseP fun t2 => t2.id == bestStar.id) hQ'
        have hstep : expandLoop stars t (fuel + 1) faction unclaimed =
            expandLoop stars t fuel
              { faction with controlledSystems := addStr faction.controlledSystems bestStar.id }
              (unclaimed.eraseP fun t2 => t2.id == bestStar.id) := by
          rw [expandLoop, if_pos hguard, hpick]
        rw [hstep, h1]
        unfold addStr
        by_cases hmem : bestStar.id ∈ faction.controlledSystems
        · rw [if_pos hmem]
          exact ⟨added', rfl, h2⟩
        · rw [if_neg hmem]
          refine ⟨bestStar.id :: added', by simp, ?_⟩
          intro i hi
          rcases List.mem_cons.mp hi with rfl | hi
          · exact hQb
          · exact h2 i hi
      | none =>
        cases hfb : pickFallbackStar (territoryCenter faction stars) unclaimed with
        | some fallbackStar =>
          have hQb : Q fallbackStar.id := hQ fallbackStar (pickFallbackStar_mem hfb)
          have hQ' : ∀ x ∈ unclaimed.eraseP (fun t2 => t2.id == fallbackStar.id), Q x.id :=
            fun x hx => hQ x ((List.eraseP_sublist _).mem hx)
          obtain ⟨added', h1, h2⟩ := ih
            { faction with
              controlledSystems := addStr faction.controlledSystems fallbackStar.id }
            (unclaimed.eraseP fun t2 => t2.id == fallbackStar.id) hQ'
          have hstep : expandLoop stars t (fuel + 1) faction unclaimed =
              expandLoop stars t fuel
                { faction with
                  controlledSystems := addStr faction.controlledSystems fallbackStar.id }
                (unclaimed.eraseP fun t2 => t2.id == fallbackStar.id) := by
            rw [expandLoop, if_pos hguard, hpick, hfb]
          rw [hstep, h1]
          unfold addStr
          by_cases hmem : fallbackStar.id ∈ faction.controlledSystems
          · rw [if_pos hmem]
            exact ⟨added', rfl, h2⟩
          · rw [if_neg hmem]
            refine ⟨fallbackStar.id :: added', by simp, ?_⟩
            intro i hi
            rcases List.mem_cons.mp hi with rfl | hi
            · exact hQb
            · exact h2 i hi
        | none =>
          refine ⟨[], ?_, by simp⟩
          rw [expandLoop, if_pos hguard, hpick, hfb]
          simp
    · refine ⟨[], ?_, by simp⟩
      rw [expandLoop, if_neg hguard]
      simp

/-- The expansion loop never grows a territory beyond
`max 1 targetSize`. -/
theorem expandLoop_length (stars : List Star) (t : Nat) :
    ∀ (fuel : Nat) (faction : Faction) (unclaimed : List Star),
    faction.controlledSystems.length ≤ max 1 t →
    (expandLoop stars t fuel faction unclaimed).controlledSystems.length ≤ max 1 t := by
  intro fuel
  induction fuel with
  | zero =>
    intro faction unclaimed h
    simpa [expandLoop] using h
  | succ fuel ih =>
    intro faction unclaimed h
    by_cases hguard : faction.controlledSystems.length < t ∧ 0 < unclaimed.length
    · have hbound : ∀ x : Star,
          (addStr faction.controlledSystems x.id).length ≤ max 1 t := by
        intro x
        have := addStr_length faction.controlledSystems x.id
        omega
      cases hpick : pickBestStar faction stars unclaimed with
      | some bestStar =>
        rw [expandLoop, if_pos hguard, hpick]
        exact ih _ _ (hbound bestStar)
      | none =>
        cases hfb : pickFallbackStar (territoryCenter faction stars) unclaimed with
        | some fallbackStar =>
          rw [expandLoop, if_pos hguard, hpick, hfb]
          exact ih _ _ (hbound fallbackStar)
        | none =>
          rw [expandLoop, if_pos hguard, hpick, hfb]
          exact h
    · rw [expandLoop, if_neg hguard]
      exact h

theorem expandFactionTerritory_spec (faction : Faction) (stars : List Star)
    (allFactions : List Faction) (t : Nat) :
    ∃ added : List String,
      expandFactionTerritory faction stars allFactions t =
        { faction with controlledSystems := faction.controlledSystems ++ added } ∧
      ∀ i ∈ added, ∀ g ∈ allFactions, i ∉ g.controlledSystems := by
  unfold expandFactionTerritory
  refine expandLoop_spec stars t _ _ faction _ ?_
  intro x hx
  have hf := List.mem_filter.mp hx
  have hb := hf.2
  simp only [Bool.not_eq_true', List.any_eq_false, decide_eq_true_eq] at hb
  intro g hg
  exact hb g hg

theorem expandFactionTerritory_length (faction : Faction) (stars : List Star)
    (allFactions : List Faction) (t : Nat)
    (h : faction.controlledSystems.length ≤ max 1 t) :
    (expandFactionTerritory faction stars allFactions t).controlledSystems.length ≤
      max 1 t :=
  expandLoop_length stars t _ faction _ h

/-- Disjointness of two factions' territories. -/
def Disj (f g : Faction) : Prop :=
  ∀ i ∈ f.controlledSystems, i ∉ g.controlledSystems

/-- The per-faction facts carried through the expansion pass. -/
def FacOk (t : Nat) (f : Faction) : Prop :=
  f.homeSystemId ∈ f.controlledSystems ∧
    f.controlledSystems.length ≤ max 1 t ∧ f.relations = []

theorem expandAllGo_spec (stars : List Star) (t : Nat) :
    ∀ (rest done : List Faction),
    List.Pairwise Disj (done ++ rest) →
    (∀ f ∈ done ++ rest, FacOk t f) →
    List.Pairwise Disj (expandAllGo stars t done rest) ∧
    (∀ f ∈ expandAllGo stars t done rest, FacOk t f) ∧
    (expandAllGo stars t done rest).length = done.length + rest.length := by
  intro rest
  induction rest with
  | nil =>
    intro done hPD hOk
    rw [expandAllGo]
    simpa using ⟨by simpa using hPD, fun f hf => hOk f (by simpa using hf)⟩
  | cons f rest ih =>
    intro done hPD hOk
    obtain ⟨added, hexp, havoid⟩ := expandFactionTerritory_spec f stars (done ++ f :: rest) t
    set f' := expandFactionTerritory f stars (done ++ f :: rest) t with hf'
    have hctrl : f'.controlledSystems = f.controlledSystems ++ added := by
      rw [hexp]
    have hhome : f'.homeSystemId = f.homeSystemId := by rw [hexp]
    have hrel : f'.relations = f.relations := by rw [hexp]
    have hOkf : FacOk t f := hOk f (List.mem_append_right _ (List.mem_cons_self _ _))
    have hOkf' : FacOk t f' := by
      refine ⟨?_, ?_, ?_⟩
      · rw [hhome, hctrl]
        exact List.mem_append_left _ hOkf.1
      · exact expandFactionTerritory_length f stars _ t hOkf.2.1
      · rw [hrel]
        exact hOkf.2.2
    -- disjointness of the updated list
    have hPD' : List.Pairwise Disj ((done ++ [f']) ++ rest) := by
      rw [List.append_assoc, List.singleton_append]
      rw [List.pairwise_append] at hPD ⊢
      obtain ⟨hdone, hfr, hcross⟩ := hPD
      have hfrest := List.pairwise_cons.mp hfr
      refine ⟨hdone, ?_, ?_⟩
      · rw [List.pairwise_cons]
        refine ⟨?_, hfrest.2⟩
        intro r hr i hi
        rw [hctrl] at hi
        rcases List.mem_append.mp hi with hi | hi
        · exact hfrest.1 r hr i hi
        · exact havoid i hi r (List.mem_append_right _ (List.mem_cons_of_mem _ hr))
      · intro d hd g hg
        rcases List.mem_cons.mp hg with rfl | hg
        · intro i hi
          rw [hctrl]
          intro hmem
          rcases List.mem_append.mp hmem with hmem | hmem
          · exact hcross d hd f (List.mem_cons_self _ _) i hi hmem
          · exact havoid i hmem d (List.mem_append_left _ hd) hi
        · exact hcross d hd g (List.mem_cons_of_mem _ hg)
    have hOk' : ∀ g ∈ (done ++ [f']) ++ rest, FacOk t g := by
      intro g hg
      rw [List.append_assoc, List.singleton_append] at hg
      rcases List.mem_append.mp hg with hg | hg
      · exact hOk g (List.mem_append_left _ hg)
      · rcases List.mem_cons.mp hg with rfl | hg
        · exact hOkf'
        · exact hOk g (List.mem_append_right _ (List.mem_cons_of_mem _ hg))
    obtain ⟨p1, p2, p3⟩ := ih (done ++ [f']) hPD' hOk'
    rw [expandAllGo]
    refine ⟨p1, p2, ?_⟩
    rw [p3]
    simp only [List.length_append, List.length_cons, List.length_nil]
    omega

theorem homeAttempts_not_used (stars : List Star) (used : List String) (s : Nat → ℝ) :
    ∀ (k : Nat) (best : Option Star) (maxMin : EReal) (st : St),
    (∀ x, best = some x → x.id ∉ used) →
    ∀ b, (homeAttempts stars used s k best maxMin st).1 = some b → b.id ∉ used := by
  intro k
  induction k with
  | zero =>
    intro best maxMin st hbest b hb
    exact hbest b hb
  | succ k ih =>
    intro best maxMin st hbest b hb
    rw [homeAttempts] at hb
    by_cases hc : (stars.getD
        ((⌊(randR s st).1 * ((stars.length : ℝ) - 1)⌋).toNat + 1) default).id ∈ used
    · rw [if_pos hc] at hb
      exact ih best maxMin _ hbest b hb
    · rw [if_neg hc] at hb
      by_cases hlt : maxMin < minDistToUsed stars used
          (stars.getD ((⌊(randR s st).1 * ((stars.length : ℝ) - 1)⌋).toNat + 1) default)
      · rw [if_pos hlt] at hb
        refine ih _ _ _ ?_ b hb
        intro x hx
        rw [Option.some.inj hx] at hc
        exact hc
      · rw [if_neg hlt] at hb
        exact ih best maxMin _ hbest b hb

theorem fallbackHome_not_used (stars : List Star) (used : List String) (s : Nat → ℝ) :
    ∀ (fuel : Nat) (st : St) (c : Star) (st2 : St),
    fallbackHome stars used s fuel st = some (c, st2) → c.id ∉ used := by
  intro fuel
  induction fuel with
  | zero =>
    intro st c st2 h
    exact absurd h (by simp [fallbackHome])
  | succ fuel ih =>
    intro st c st2 h
    rw [fallbackHome] at h
    by_cases hc : (stars.getD
        ((⌊(randR s st).1 * ((stars.length : ℝ) - 1)⌋).toNat + 1) default).id ∈ used
    · rw [if_pos hc] at h
      exact ih _ c st2 h
    · rw [if_neg hc] at h
      have h1 : stars.getD ((⌊(randR s st).1 * ((stars.length : ℝ) - 1)⌋).toNat + 1) default
          = c := congrArg Prod.fst (Option.some.inj h)
      exact h1 ▸ hc

theorem pickHomeStar_not_used (stars : List Star) (used : List String) (s : Nat → ℝ)
    (fuel : Nat) (st : St) (b : Star) (st2 : St)
    (h : pickHomeStar stars used s fuel st = some (b, st2)) : b.id ∉ used := by
  unfold pickHomeStar at h
  dsimp only at h
  cases hatt : (homeAttempts stars used s 10 none ⊥ st).1 with
  | some b' =>
    rw [hatt] at h
    have hb' : b' = b := by
      have := Option.some.inj h
      exact congrArg Prod.fst this
    rw [← hb']
    exact homeAttempts_not_used stars used s 10 none ⊥ st (by simp) b' hatt
  | none =>
    rw [hatt] at h
    exact fallbackHome_not_used stars used s fuel _ b st2 h

theorem generateFaction_spec (t : FactionType) (home : Star) (usedColors : List String)
    (s : Nat → ℝ) (u : Nat → String) (fuel : Nat) (st : St) (fac : Faction) (st4 : St)
    (h : generateFaction t home usedColors s u fuel st = some (fac, st4)) :
    fac.controlledSystems = [fac.homeSystemId] ∧ fac.relations = [] ∧
      fac.homeSystemId = home.id := by
  unfold generateFaction at h
  dsimp only at h
  cases hc : pickColorLoop usedColors s fuel
      (FACTION_COLORS.getD (⌊(randR s st).1 * (FACTION_COLORS.length : ℝ)⌋).toNat "")
      (randR s st).2 with
  | none =>
    rw [hc] at h
    exact absurd h (by simp)
  | some p =>
    rw [hc] at h
    have hfac := congrArg Prod.fst (Option.some.inj h)
    dsimp only at hfac
    rw [← hfac]
    exact ⟨rfl, rfl, rfl⟩

theorem buildFactions_spec (stars : List Star) (s : Nat → ℝ) (u : Nat → String)
    (fuel : Nat) : ∀ (k : Nat) (usedStars usedColors : List String) (st : St)
    (fs : List Faction) (st' : St),
    buildFactions stars s u fuel k usedStars usedColors st = some (fs, st') →
    fs.length = k ∧
    (∀ f ∈ fs, f.controlledSystems = [f.homeSystemId] ∧ f.relations = []) ∧
    (∀ f ∈ fs, f.homeSystemId ∉ usedStars) ∧
    (fs.map Faction.homeSystemId).Nodup := by
  intro k
  induction k with
  | zero =>
    intro usedStars usedColors st fs st' h
    have hfs : fs = [] := by
      have := Option.some.inj h
      exact (congrArg Prod.fst this).symm
    subst hfs
    simp
  | succ k ih =>
    intro usedStars usedColors st fs st' h
    rw [buildFactions] at h
    cases hbs : pickHomeStar stars usedStars s fuel st with
    | none =>
      rw [hbs] at h
      exact absurd h (by simp)
    | some p =>
      obtain ⟨bestStar, st2⟩ := p
      rw [hbs] at h
      dsimp only at h
      cases hgf : generateFaction
          (FACTION_TYPES.getD (⌊(randR s st2).1 * (FACTION_TYPES.length : ℝ)⌋).toNat default)
          bestStar usedColors s u fuel (randR s st2).2 with
      | none =>
        rw [hgf] at h
        exact absurd h (by simp)
      | some q =>
        obtain ⟨faction, st4⟩ := q
        rw [hgf] at h
        dsimp only at h
        cases hrec : buildFactions stars s u fuel k (addStr usedStars bestStar.id)
            (addStr usedColors faction.color) st4 with
        | none =>
          rw [hrec] at h
          exact absurd h (by simp)
        | some r =>
          obtain ⟨rest, st5⟩ := r
          rw [hrec] at h
          dsimp only at h
          have hfs : fs = faction :: rest := by
            have := Option.some.inj h
            exact (congrArg Prod.fst this).symm
          subst hfs
          obtain ⟨hl, hshape, hnotused, hnodup⟩ := ih _ _ _ _ _ hrec
          obtain ⟨hs1, hs2, hs3⟩ := generateFaction_spec _ _ _ _ _ _ _ _ _ hgf
          have hbest := pickHomeStar_not_used stars usedStars s fuel st bestStar st2 hbs
          refine ⟨by simp [hl], ?_, ?_, ?_⟩
          · intro f hf
            rcases List.mem_cons.mp hf with rfl | hf
            · exact ⟨hs1, hs2⟩
            · exact hshape f hf
          · intro f hf
            rcases List.mem_cons.mp hf with rfl | hf
            · rw [hs3]
              exact hbest
            · intro hmem
              exact hnotused f hf (mem_addStr_iff.mpr (Or.inl hmem))
          · rw [List.map_cons, List.nodup_cons]
            refine ⟨?_, hnodup⟩
            intro hmem
            obtain ⟨g, hg, hgid⟩ := List.mem_map.mp hmem
            have := hnotused g hg
            rw [hgid, hs3] at this
            exact this (mem_addStr_iff.mpr (Or.inr rfl))

theorem relationsPhase_mem {stars : List Star} {fs : List Faction} {f' : Faction}
    (h : f' ∈ relationsPhase stars fs) : ∃ f ∈ fs,
      f'.controlledSystems = f.controlledSystems ∧
      f'.homeSystemId = f.homeSystemId := by
  obtain ⟨f, hf, rfl⟩ := List.mem_map.mp h
  exact ⟨f, hf, rfl, rfl⟩

theorem relationsPhase_pairwise {stars : List Star} {fs : List Faction}
    (h : List.Pairwise Disj fs) : List.Pairwise Disj (relationsPhase stars fs) := by
  unfold relationsPhase
  rw [List.pairwise_map]
  exact h.imp fun hab => hab

/-- Master specification of `generateInitialFactions`: exactly three
factions, homes inside territories, territory size at most
`max 1 targetSize`, and pairwise-disjoint territories. -/
theorem generateInitialFactions_spec (stars : List Star) (s : Nat → ℝ)
    (u : Nat → String) (fuel : Nat) (fs : List Faction)
    (h : generateInitialFactions stars s u fuel = some fs) :
    fs.length = 3 ∧
    (∀ f ∈ fs, f.homeSystemId ∈ f.controlledSystems) ∧
    (∀ f ∈ fs, f.controlledSystems.length ≤
      max 1 (⌊((stars.length : ℝ) - 1) / 10⌋).toNat) ∧
    List.Pairwise Disj fs := by
  unfold generateInitialFactions at h
  cases hbf : buildFactions stars s u fuel 3 [] [] ⟨0, 0⟩ with
  | none =>
    rw [hbf] at h
    exact absurd h (by simp)
  | some res =>
    rw [hbf] at h
    simp only [Option.map_some'] at h
    obtain ⟨fs0, st'⟩ := res
    obtain ⟨hl, hshape, _, hnodup⟩ := buildFactions_spec stars s u fuel 3 [] [] ⟨0, 0⟩
      fs0 st' hbf
    set t := (⌊((stars.length : ℝ) - 1) / 10⌋).toNat with ht
    have hOk0 : ∀ f ∈ ([] : List Faction) ++ fs0, FacOk t f := by
      intro f hf
      rw [List.nil_append] at hf
      obtain ⟨h1, h2⟩ := hshape f hf
      refine ⟨by rw [h1]; exact List.mem_singleton_self _, ?_, h2⟩
      rw [h1]
      simp
    have hPD0 : List.Pairwise Disj (([] : List Faction) ++ fs0) := by
      rw [List.nil_append]
      have hp : fs0.Pairwise fun f g => f.homeSystemId ≠ g.homeSystemId :=
        List.pairwise_map.mp hnodup
      refine hp.imp_of_mem ?_
      intro f g hf hg hne i hif hig
      rw [(hshape f hf).1] at hif
      rw [(hshape g hg).1] at hig
      rw [List.mem_singleton.mp hif] at hig
      exact hne (List.mem_singleton.mp hig)
    obtain ⟨hPD, hOk, hlen⟩ := expandAllGo_spec stars t fs0 [] hPD0 hOk0
    have hfs : fs = relationsPhase stars (expandAllGo stars t [] fs0) :=
      (Option.some.inj h).symm
    subst hfs
    refine ⟨?_, ?_, ?_, relationsPhase_pairwise hPD⟩
    · unfold relationsPhase
      rw [List.length_map, hlen]
      simpa using hl
    · intro f hf
      obtain ⟨g, hg, h1, h2⟩ := relationsPhase_mem hf
      rw [h1, h2]
      exact (hOk g hg).1
    · intro f hf
      obtain ⟨g, hg, h1, _⟩ := relationsPhase_mem hf
      rw [h1]
      exact (hOk g hg).2.1

/-- C3: on a star list with pairwise-distinct ids and at least 4 stars,
the territories of the returned factions are pairwise disjoint: no star
id is controlled by two different factions. -/
theorem claim_C3 (stars : List Star) (s : Nat → ℝ) (u : Nat → String) (fuel : Nat)
    (fs : List Faction) (hids : (stars.map Star.id).Nodup) (hlen : 4 ≤ stars.length)
    (h : generateInitialFactions stars s u fuel = some fs) :
    List.Pairwise Disj fs :=
  (generateInitialFactions_spec stars s u fuel fs h).2.2.2

/-- C4: on a star list with pairwise-distinct ids and at least 4 stars,
`generateInitialFactions` returns exactly 3 factions, and every returned
faction's `controlledSystems` contains its `homeSystemId`. -/
theorem claim_C4 (stars : List Star) (s : Nat → ℝ) (u : Nat → String) (fuel : Nat)
    (fs : List Faction) (hids : (stars.map Star.id).Nodup) (hlen : 4 ≤ stars.length)
    (h : generateInitialFactions stars s u fuel = some fs) :
    fs.length = 3 ∧ ∀ f ∈ fs, f.homeSystemId ∈ f.controlledSystems :=
  ⟨(generateInitialFactions_spec stars s u fuel fs h).1,
    (generateInitialFactions_spec stars s u fuel fs h).2.1⟩

/-- C5 (amended): every returned faction's territory has size at most
`max 1 targetSize` with `targetSize = ⌊(stars.length − 1) / 10⌋`: the
expansion loop respects the target, but every faction always keeps its
home system, so for fewer than 11 stars (`targetSize = 0`) the size is 1,
not 0. -/
theorem claim_C5_amended (stars : List Star) (s : Nat → ℝ) (u : Nat → String)
    (fuel : Nat) (fs : List Faction)
    (h : generateInitialFactions stars s u fuel = some fs) :
    ∀ f ∈ fs, f.controlledSystems.length ≤
      max 1 (⌊((stars.length : ℝ) - 1) / 10⌋).toNat :=
  (generateInitialFactions_spec stars s u fuel fs h).2.2.1

/-! ## Claim C10: symmetry of initial relations -/

theorem calculateDistance_comm (p q : Vector2D) :
    calculateDistance p q = calculateDistance q p := by
  unfold calculateDistance
  ring_nf

theorem relationScore_symm (stars : List Star) (A B : Faction) :
    relationScore stars A B = relationScore stars B A := by
  unfold relationScore
  dsimp only
  have h1 : (A.traits.diplomatic + B.traits.diplomatic) * 20 -
      (A.traits.aggressive + B.traits.aggressive) * 15 =
      (B.traits.diplomatic + A.traits.diplomatic) * 20 -
      (B.traits.aggressive + A.traits.aggressive) * 15 := by ring
  have h2 : (A.type = B.type) = (B.type = A.type) := by
    simp [eq_comm]
  have h2' : (A.type = B.type) ↔ (B.type = A.type) := eq_comm
  have h3 : (A.controlledSystems.any fun systemId =>
      B.controlledSystems.any fun otherSystemId =>
        match stars.find? (fun s2 => s2.id == systemId),
            stars.find? (fun s2 => s2.id == otherSystemId) with
        | some system1, some system2 =>
          decide (calculateDistance system1.position system2.position < 300)
        | _, _ => false) =
      (B.controlledSystems.any fun systemId =>
      A.controlledSystems.any fun otherSystemId =>
        match stars.find? (fun s2 => s2.id == systemId),
            stars.find? (fun s2 => s2.id == otherSystemId) with
        | some system1, some system2 =>
          decide (calculateDistance system1.position system2.position < 300)
        | _, _ => false) := by
    rw [Bool.eq_iff_iff]
    simp only [List.any_eq_true]
    constructor
    · rintro ⟨i, hi, j, hj, hP⟩
      refine ⟨j, hj, i, hi, ?_⟩
      cases hfi : stars.find? (fun s2 => s2.id == i) <;>
        cases hfj : stars.find? (fun s2 => s2.id == j) <;>
          rw [hfi, hfj] at hP <;> simp at hP ⊢
      rw [calculateDistance_comm]
      exact hP
    · rintro ⟨j, hj, i, hi, hP⟩
      refine ⟨i, hi, j, hj, ?_⟩
      cases hfi : stars.find? (fun s2 => s2.id == i) <;>
        cases hfj : stars.find? (fun s2 => s2.id == j) <;>
          rw [hfi, hfj] at hP <;> simp at hP ⊢
      rw [calculateDistance_comm]
      exact hP
  rw [h1, h3]
  simp only [h2']

theorem lookup_map_update {k k' : String} {v : ℝ} (h : k' ≠ k) :
    ∀ m : List (String × ℝ),
    (m.map fun p => if p.1 = k then (k, v) else p).lookup k' = m.lookup k' := by
  intro m
  induction m with
  | nil => rfl
  | cons p m ih =>
    obtain ⟨a, b⟩ := p
    rw [List.map_cons]
    by_cases hp : a = k
    · rw [show (if (a, b).1 = k then (k, v) else (a, b)) = (k, v) from if_pos hp]
      rw [List.lookup_cons, List.lookup_cons,
        show (k' == k) = false from beq_eq_false_iff_ne.mpr h,
        show (k' == a) = false from beq_eq_false_iff_ne.mpr (by rw [hp]; exact h)]
      exact ih
    · rw [show (if (a, b).1 = k then (k, v) else (a, b)) = (a, b) from if_neg hp]
      rw [List.lookup_cons, List.lookup_cons]
      cases hak : k' == a with
      | true => rfl
      | false => exact ih

theorem lookup_append_single {k k' : String} {v : ℝ} (h : k' ≠ k) :
    ∀ m : List (String × ℝ), (m ++ [(k, v)]).lookup k' = m.lookup k' := by
  intro m
  induction m with
  | nil =>
    show ((k, v) :: []).lookup k' = _
    rw [List.lookup_cons, show (k' == k) = false from beq_eq_false_iff_ne.mpr h]
  | cons p m ih =>
    obtain ⟨a, b⟩ := p
    show ((a, b) :: (m ++ [(k, v)])).lookup k' = ((a, b) :: m).lookup k'
    rw [List.lookup_cons, List.lookup_cons]
    cases hak : k' == a with
    | true => rfl
    | false => exact ih

theorem lookup_mapSet_ne {m : List (String × ℝ)} {k k' : String} {v : ℝ}
    (h : k' ≠ k) : (mapSet m k v).lookup k' = m.lookup k' := by
  unfold mapSet
  split
  · exact lookup_map_update h m
  · exact lookup_append_single h m

theorem lookup_mapSet_self {m : List (String × ℝ)} {k : String} {v : ℝ}
    (h : ∀ p ∈ m, p.1 ≠ k) : (mapSet m k v).lookup k = some v := by
  unfold mapSet
  have hany : (m.any fun p => p.1 == k) = false := by
    simp only [List.any_eq_false]
    intro p hp
    simpa using h p hp
  rw [if_neg (by rw [hany]; simp)]
  induction m with
  | nil =>
    show ((k, v) :: []).lookup k = some v
    rw [List.lookup_cons, show (k == k) = true from beq_self_eq_true k]
  | cons p m ih =>
    obtain ⟨a, b⟩ := p
    show ((a, b) :: (m ++ [(k, v)])).lookup k = some v
    rw [List.lookup_cons]
    have hp : (k == a) = false := by
      refine beq_eq_false_iff_ne.mpr ?_
      have := h (a, b) (List.mem_cons_self _ _)
      simpa using fun hc => this (by rw [hc])
    rw [hp]
    refine ih ?_ ?_
    · intro q hq
      exact h q (List.mem_cons_of_mem _ hq)
    · simp only [List.any_eq_false]
      intro q hq
      simpa using h q (List.mem_cons_of_mem _ hq)

theorem mem_mapSet {m : List (String × ℝ)} {k : String} {v : ℝ} {p : String × ℝ}
    (h : p ∈ mapSet m k v) : p ∈ m ∨ p.1 = k := by
  unfold mapSet at h
  split at h
  · rcases List.mem_map.mp h with ⟨q, hq, hqp⟩
    by_cases hqk : q.1 = k
    · rw [if_pos hqk] at hqp
      exact Or.inr (by rw [← hqp])
    · rw [if_neg hqk] at hqp
      exact Or.inl (hqp ▸ hq)
  · rcases List.mem_append.mp h with h | h
    · exact Or.inl h
    · exact Or.inr (by rw [List.mem_singleton.mp h])

/-- After the relation fold, looking up a faction `B` from the processed
list yields exactly the directed score towards `B`. -/
theorem factionRelations_lookup_aux (stars : List Star) (f : Faction) (B : Faction) :
    ∀ (l : List Faction) (m : List (String × ℝ)),
    (∀ p ∈ m, ∀ g ∈ l, p.1 ≠ g.id) →
    B ∈ l → (l.map Faction.id).Nodup → B.id ≠ f.id →
    (l.foldl (fun m otherFaction =>
      if f.id ≠ otherFaction.id then
        mapSet m otherFaction.id (relationScore stars f otherFaction)
      else m) m).lookup B.id = some (relationScore stars f B) := by
  intro l
  induction l with
  | nil =>
    intro m _ hB
    simp at hB
  | cons g l ih =>
    intro m hkeys hB hnodup hBf
    rw [List.map_cons, List.nodup_cons] at hnodup
    rw [List.foldl_cons]
    by_cases hgB : g.id = B.id
    · have hBg : B = g := by
        rcases List.mem_cons.mp hB with rfl | hBl
        · rfl
        · exact absurd (hgB ▸ List.mem_map.mpr ⟨B, hBl, rfl⟩) hnodup.1
      subst hBg
      rw [if_pos (fun hc => hBf hc.symm)]
      have hrest : ∀ g' ∈ l, g'.id ≠ B.id := by
        intro g' hg' hc
        exact hnodup.1 (hc ▸ List.mem_map.mpr ⟨g', hg', rfl⟩)
      have hpres : ∀ (l2 : List Faction) (m2 : List (String × ℝ)),
          (∀ g' ∈ l2, g'.id ≠ B.id) →
          (l2.foldl (fun m otherFaction =>
            if f.id ≠ otherFaction.id then
              mapSet m otherFaction.id (relationScore stars f otherFaction)
            else m) m2).lookup B.id = m2.lookup B.id := by
        intro l2
        induction l2 with
        | nil => intro m2 _; rfl
        | cons g2 l2 ih2 =>
          intro m2 hl2
          rw [List.foldl_cons]
          rw [ih2 _ fun g' hg' => hl2 g' (List.mem_cons_of_mem _ hg')]
          by_cases hfg : f.id ≠ g2.id
          · rw [if_pos hfg]
            exact lookup_mapSet_ne (Ne.symm (hl2 g2 (List.mem_cons_self _ _)))
          · rw [if_neg hfg]
      rw [hpres l _ hrest]
      exact lookup_mapSet_self fun p hp => hkeys p hp B (List.mem_cons_self _ _)
    · have hBl : B ∈ l := by
        rcases List.mem_cons.mp hB with rfl | hBl
        · exact absurd rfl hgB
        · exact hBl
      have hkeys' : ∀ p ∈ (if f.id ≠ g.id then
          mapSet m g.id (relationScore stars f g) else m), ∀ g' ∈ l, p.1 ≠ g'.id := by
        intro p hp g' hg'
        by_cases hfg : f.id ≠ g.id
        · rw [if_pos hfg] at hp
          rcases mem_mapSet hp with hp | hp
          · exact hkeys p hp g' (List.mem_cons_of_mem _ hg')
          · rw [hp]
            intro hc
            exact hnodup.1 (hc ▸ List.mem_map.mpr ⟨g', hg', rfl⟩)
        · rw [if_neg hfg] at hp
          exact hkeys p hp g' (List.mem_cons_of_mem _ hg')
      exact ih _ hkeys' hBl hnodup.2 hBf

theorem relationsPhase_map_id (stars : List Star) (fs : List Faction) :
    (relationsPhase stars fs).map Faction.id = fs.map Faction.id := by
  unfold relationsPhase
  rw [List.map_map]
  rfl

/-- Every successful run is the relations pass applied to a faction list
whose `relations` maps are still empty. -/
theorem generateInitialFactions_shape (stars : List Star) (s : Nat → ℝ)
    (u : Nat → String) (fuel : Nat) (fs : List Faction)
    (h : generateInitialFactions stars s u fuel = some fs) :
    ∃ gs : List Faction, fs = relationsPhase stars gs ∧ ∀ g ∈ gs, g.relations = [] := by
  unfold generateInitialFactions at h
  cases hbf : buildFactions stars s u fuel 3 [] [] ⟨0, 0⟩ with
  | none =>
    rw [hbf] at h
    exact absurd h (by simp)
  | some res =>
    rw [hbf] at h
    simp only [Option.map_some'] at h
    obtain ⟨fs0, st'⟩ := res
    obtain ⟨_, hshape, _, hnodup⟩ := buildFactions_spec stars s u fuel 3 [] [] ⟨0, 0⟩
      fs0 st' hbf
    set t := (⌊((stars.length : ℝ) - 1) / 10⌋).toNat with ht
    have hOk0 : ∀ f ∈ ([] : List Faction) ++ fs0, FacOk t f := by
      intro f hf
      rw [List.nil_append] at hf
      obtain ⟨h1, h2⟩ := hshape f hf
      refine ⟨by rw [h1]; exact List.mem_singleton_self _, ?_, h2⟩
      rw [h1]
      simp
    have hPD0 : List.Pairwise Disj (([] : List Faction) ++ fs0) := by
      rw [List.nil_append]
      have hp : fs0.Pairwise fun f g => f.homeSystemId ≠ g.homeSystemId :=
        List.pairwise_map.mp hnodup
      refine hp.imp_of_mem ?_
      intro f g hf hg hne i hif hig
      rw [(hshape f hf).1] at hif
      rw [(hshape g hg).1] at hig
      rw [List.mem_singleton.mp hif] at hig
      exact hne (List.mem_singleton.mp hig)
    obtain ⟨_, hOk, _⟩ := expandAllGo_spec stars t fs0 [] hPD0 hOk0
    refine ⟨expandAllGo stars t [] fs0, (Option.some.inj h).symm, ?_⟩
    intro g hg
    exact (hOk g hg).2.2

/-- C10: on every successful run with pairwise-distinct faction ids, the
relation score stored by faction `A` for faction `B` equals the score
stored by `B` for `A`. -/
theorem claim_C10 (stars : List Star) (s : Nat → ℝ) (u : Nat → String) (fuel : Nat)
    (fs : List Faction) (h : generateInitialFactions stars s u fuel = some fs)
    (hnodup : (fs.map Faction.id).Nodup)
    (A B : Faction) (hA : A ∈ fs) (hB : B ∈ fs) (hAB : A ≠ B) :
    A.relations.lookup B.id = B.relations.lookup A.id := by
  obtain ⟨gs, rfl, hrel⟩ := generateInitialFactions_shape stars s u fuel fs h
  rw [relationsPhase_map_id] at hnodup
  obtain ⟨a, ha, rfl⟩ := List.mem_map.mp hA
  obtain ⟨b, hb, rfl⟩ := List.mem_map.mp hB
  have hab : a.id ≠ b.id := by
    intro hc
    exact hAB (by rw [List.inj_on_of_nodup_map hnodup ha hb hc])
  have hlookA : (factionRelations stars gs a).lookup b.id =
      some (relationScore stars a b) := by
    unfold factionRelations
    rw [hrel a ha]
    exact factionRelations_lookup_aux stars a b gs [] (by simp) hb hnodup
      (Ne.symm hab)
  have hlookB : (factionRelations stars gs b).lookup a.id =
      some (relationScore stars b a) := by
    unfold factionRelations
    rw [hrel b hb]
    exact factionRelations_lookup_aux stars b a gs [] (by simp) ha hnodup hab
  show (factionRelations stars gs a).lookup b.id =
    (factionRelations stars gs b).lookup a.id
  rw [hlookA, hlookB, relationScore_symm]

/-! ## Concrete run of `generateInitialFactions` (witness input)

Four stars, all at the origin, ids `a`–`d`; the random stream drives the
run so that the three factions take homes `b`, `c`, `d`, all of type
CORPORATE with colours red, blue, green. -/

noncomputable section

def S4b : Star := ⟨"b", ⟨0, 0⟩, "", .RED_DWARF, 0, ""⟩

def S4c : Star := ⟨"c", ⟨0, 0⟩, "", .RED_DWARF, 0, ""⟩

def S4d : Star := ⟨"d", ⟨0, 0⟩, "", .RED_DWARF, 0, ""⟩

def S4 : List Star := [⟨"a", ⟨0, 0⟩, "", .RED_DWARF, 0, ""⟩, S4b, S4c, S4d]

/-- The `Math.random()` draws of the witness run, in consumption order:
ten home attempts, one faction type, one colour, two name parts and five
traits per faction. -/
def srand : Nat → ℝ := fun n =>
  if n ≤ 18 then 0
  else if n ≤ 28 then 1/2
  else if n = 30 then 3/20
  else if n ≤ 37 then 0
  else if n ≤ 47 then 5/6
  else if n = 49 then 1/4
  else 0

def suid : Nat → String := fun n =>
  match n with
  | 0 => "f0"
  | 1 => "f1"
  | 2 => "f2"
  | _ => "fx"

def trC : FactionTraits := ⟨3/10, 1/2, 3/10, 3/10, 3/5⟩

def F0raw : Faction :=
  ⟨"f0", "Stellar Corp", .CORPORATE, trC, "#FF4D4D", "b", ["b"], []⟩

def F1raw : Faction :=
  ⟨"f1", "Stellar Corp", .CORPORATE, trC, "#4D4DFF", "c", ["c"], []⟩

def F2raw : Faction :=
  ⟨"f2", "Stellar Corp", .CORPORATE, trC, "#4DFF4D", "d", ["d"], []⟩

def F0fin : Faction :=
  ⟨"f0", "Stellar Corp", .CORPORATE, trC, "#FF4D4D", "b", ["b"],
   [("f1", 16), ("f2", 16)]⟩

def F1fin : Faction :=
  ⟨"f1", "Stellar Corp", .CORPORATE, trC, "#4D4DFF", "c", ["c"],
   [("f0", 16), ("f2", 16)]⟩

def F2fin : Faction :=
  ⟨"f2", "Stellar Corp", .CORPORATE, trC, "#4DFF4D", "d", ["d"],
   [("f0", 16), ("f1", 16)]⟩

end

theorem toNat2 : (2 : ℤ).toNat = 2 := rfl

theorem dist00 : calculateDistance ⟨0, 0⟩ ⟨0, 0⟩ = 0 := by
  unfold calculateDistance
  norm_num

theorem min_top_l (x : EReal) : min ⊤ x = x := min_eq_right le_top

theorem ebot_lt_zero : (⊥ : EReal) < 0 := by
  simpa using EReal.bot_lt_coe 0


theorem ev_home1 : pickHomeStar S4 [] srand 1 ⟨0, 0⟩ = some (S4b, ⟨10, 0⟩) := by
  norm_num +decide [pickHomeStar, homeAttempts, randR, srand, S4, S4b, S4c, S4d,
    minDistToUsed, dist00, min_top_l, ebot_lt_zero, bot_lt_top, toNat2]

theorem clamp01_of (v : ℝ) (h0 : 0 ≤ v) (h1 : v ≤ 1) : clamp01 v = v := by
  unfold clamp01
  rw [min_eq_right h1, max_eq_right h0]

theorem stellarCorp : "Stellar" ++ " " ++ "Corp" = "Stellar Corp" := by decide

theorem ev_gf1 : generateFaction .CORPORATE S4b [] srand suid 1 ⟨11, 0⟩ =
    some (F0raw, ⟨19, 1⟩) := by
  norm_num +decide [generateFaction, randR, srand, suid, freshId, FACTION_COLORS, pickColorLoop,
    generateFactionName, factionNameLists, getRandomElement, generateTraits,
    F0raw, trC, S4b, clamp01_of, stellarCorp]

theorem ev_home2 : pickHomeStar S4 ["b"] srand 1 ⟨19, 1⟩ = some (S4c, ⟨29, 1⟩) := by
  norm_num +decide [pickHomeStar, homeAttempts, randR, srand, S4, S4b, S4c, S4d,
    minDistToUsed, dist00, min_top_l, ebot_lt_zero, bot_lt_top, toNat2]

theorem ev_home3 : pickHomeStar S4 ["b", "c"] srand 1 ⟨38, 2⟩ = some (S4d, ⟨48, 2⟩) := by
  norm_num +decide [pickHomeStar, homeAttempts, randR, srand, S4, S4b, S4c, S4d,
    minDistToUsed, dist00, min_top_l, ebot_lt_zero, bot_lt_top, toNat2]

theorem ev_gf2 : generateFaction .CORPORATE S4c ["#FF4D4D"] srand suid 1 ⟨30, 1⟩ =
    some (F1raw, ⟨38, 2⟩) := by
  norm_num +decide [generateFaction, randR, srand, suid, freshId, FACTION_COLORS, pickColorLoop,
    generateFactionName, factionNameLists, getRandomElement, generateTraits,
    F1raw, trC, S4c, clamp01_of, stellarCorp]

theorem ev_gf3 : generateFaction .CORPORATE S4d ["#FF4D4D", "#4D4DFF"] srand suid 1 ⟨49, 2⟩ =
    some (F2raw, ⟨57, 3⟩) := by
  norm_num +decide [generateFaction, randR, srand, suid, freshId, FACTION_COLORS, pickColorLoop,
    generateFactionName, factionNameLists, getRandomElement, generateTraits,
    F2raw, trC, S4d, clamp01_of, stellarCorp]

theorem ev_build : buildFactions S4 srand suid 1 3 [] [] ⟨0, 0⟩ =
    some ([F0raw, F1raw, F2raw], ⟨57, 3⟩) := by
  have h1 := ev_home1
  have h2 := ev_home2
  have h3 := ev_home3
  have g1 := ev_gf1
  have g2 := ev_gf2
  have g3 := ev_gf3
  simp only [S4b, S4c, S4d] at h1 h2 h3 g1 g2 g3
  norm_num +decide [buildFactions, h1, h2, h3, randR, srand, FACTION_TYPES, addStr,
    F0raw, F1raw, F2raw, S4b, S4c, S4d, g1, g2, g3, trC]

theorem expandLoop_zero_target (stars : List Star) (fuel : Nat) (f : Faction)
    (uncl : List Star) : expandLoop stars 0 fuel f uncl = f := by
  cases fuel with
  | zero => rfl
  | succ n => simp [expandLoop]

theorem expandFactionTerritory_zero (f : Faction) (stars : List Star)
    (all : List Faction) : expandFactionTerritory f stars all 0 = f := by
  unfold expandFactionTerritory
  exact expandLoop_zero_target _ _ _ _

theorem ev_expand : expandAllGo S4 0 [] [F0raw, F1raw, F2raw] = [F0raw, F1raw, F2raw] := by
  simp [expandAllGo, expandFactionTerritory_zero]

theorem dEC : decide (calculateDistance (⟨0, 0⟩ : Vector2D) ⟨0, 0⟩ < 300) = true :=
  decide_eq_true (by rw [dist00]; norm_num)

theorem sc01 : relationScore S4 F0raw F1raw = 16 := by
  unfold relationScore
  norm_num +decide [F0raw, F1raw, trC, S4, S4b, S4c, S4d, dEC, min_def, max_def, dist00]


theorem sc02 : relationScore S4 F0raw F2raw = 16 := by
  unfold relationScore
  norm_num +decide [F0raw, F2raw, trC, S4, S4b, S4c, S4d, dEC, min_def, max_def, dist00]


theorem sc10 : relationScore S4 F1raw F0raw = 16 := by
  unfold relationScore
  norm_num +decide [F1raw, F0raw, trC, S4, S4b, S4c, S4d, dEC, min_def, max_def, dist00]


theorem sc12 : relationScore S4 F1raw F2raw = 16 := by
  unfold relationScore
  norm_num +decide [F1raw, F2raw, trC, S4, S4b, S4c, S4d, dEC, min_def, max_def, dist00]


theorem sc20 : relationScore S4 F2raw F0raw = 16 := by
  unfold relationScore
  norm_num +decide [F2raw, F0raw, trC, S4, S4b, S4c, S4d, dEC, min_def, max_def, dist00]


theorem sc21 : relationScore S4 F2raw F1raw = 16 := by
  unfold relationScore
  norm_num +decide [F2raw, F1raw, trC, S4, S4b, S4c, S4d, dEC, min_def, max_def, dist00]

theorem frel0 : factionRelations S4 [F0raw, F1raw, F2raw] F0raw =
    [("f1", 16), ("f2", 16)] := by
  have h1 := sc01
  have h2 := sc02
  simp only [F0raw, F1raw, F2raw] at h1 h2
  unfold factionRelations mapSet
  norm_num +decide [h1, h2, F0raw, F1raw, F2raw]

theorem frel1 : factionRelations S4 [F0raw, F1raw, F2raw] F1raw =
    [("f0", 16), ("f2", 16)] := by
  have h1 := sc10
  have h2 := sc12
  simp only [F0raw, F1raw, F2raw] at h1 h2
  unfold factionRelations mapSet
  norm_num +decide [h1, h2, F0raw, F1raw, F2raw]

theorem frel2 : factionRelations S4 [F0raw, F1raw, F2raw] F2raw =
    [("f0", 16), ("f1", 16)] := by
  have h1 := sc20
  have h2 := sc21
  simp only [F0raw, F1raw, F2raw] at h1 h2
  unfold factionRelations mapSet
  norm_num +decide [h1, h2, F0raw, F1raw, F2raw]

theorem ev_final : generateInitialFactions S4 srand suid 1 =
    some [F0fin, F1fin, F2fin] := by
  have hb := ev_build
  have he := ev_expand
  have hts : (⌊((S4.length : ℝ) - 1) / 10⌋).toNat = 0 := by
    norm_num [S4]
  simp only [generateInitialFactions]
  rw [hb]
  simp only [Option.map_some']
  rw [hts, he]
  simp only [relationsPhase, List.map_cons, List.map_nil, frel0, frel1, frel2]
  simp [F0raw, F1raw, F2raw, F0fin, F1fin, F2fin]

theorem claim_C3_witness : List.Pairwise Disj [F0fin, F1fin, F2fin] :=
  claim_C3 S4 srand suid 1 [F0fin, F1fin, F2fin] (by decide) (by decide) ev_final

theorem claim_C4_witness : ([F0fin, F1fin, F2fin] : List Faction).length = 3 ∧
    ∀ f ∈ [F0fin, F1fin, F2fin], f.homeSystemId ∈ f.controlledSystems :=
  claim_C4 S4 srand suid 1 [F0fin, F1fin, F2fin] (by decide) (by decide) ev_final

theorem claim_C5_amended_witness : F0fin.controlledSystems.length ≤
    max 1 (⌊((S4.length : ℝ) - 1) / 10⌋).toNat :=
  claim_C5_amended S4 srand suid 1 [F0fin, F1fin, F2fin] ev_final F0fin
    (List.mem_cons_self _ _)

/-- C5 (counterexample): on a four-star galaxy, `targetSize = ⌊3/10⌋ = 0`,
but every faction still controls its home system, so its territory size
`1` exceeds `targetSize` — the claimed bound `size ≤ targetSize` fails. -/
theorem claim_C5_counterexample :
    ∃ fs, generateInitialFactions S4 srand suid 1 = some fs ∧
      ∃ f ∈ fs, (⌊((S4.length : ℝ) - 1) / 10⌋).toNat <
        f.controlledSystems.length := by
  refine ⟨[F0fin, F1fin, F2fin], ev_final, F0fin, List.mem_cons_self _ _, ?_⟩
  have hts : (⌊((S4.length : ℝ) - 1) / 10⌋).toNat = 0 := by
    norm_num [S4]
  rw [hts]
  norm_num [F0fin]

theorem claim_C10_witness :
    F0fin.relations.lookup F1fin.id = F1fin.relations.lookup F0fin.id :=
  claim_C10 S4 srand suid 1 [F0fin, F1fin, F2fin] ev_final (by decide) F0fin F1fin
    (List.mem_cons_self _ _) (List.mem_cons_of_mem _ (List.mem_cons_self _ _))
    (fun h => absurd (congrArg Faction.id h) (by decide))

end UIG
